import Mathlib

/-
Shallow embedding of the high-frequency-trading-engine repository.

Machine integers (uint64/uint32) are modelled as Nat; subtraction sites are
annotated where the C++ subtraction cannot underflow for in-range inputs, and
explicit `% 2^64` / `% 2^32` appear where the C++ computation can overflow.
Pointer-linked structures (the intrusive FIFO list inside a price level, the
order_lookup map from id to entry pointer) are modelled by value: a level holds
its orders as a Lean list in FIFO order, and order_lookup stores for each
resting order id the (side, price) pair that the C++ code reads from the
pointed-to entry.  The lock-free memory pools are modelled by their free-slot
counts.  Hardware timestamps, latency profiling and the observation-only
callbacks are not modelled (they do not alter engine state).
-/

namespace TradingEngine

/-- Side from src/src/core/types.h. -/
inductive Side where
  | Buy
  | Sell
deriving DecidableEq

/-- OrderType from src/src/core/types.h. -/
inductive OrderType where
  | Market
  | Limit
  | Stop
  | StopLimit
deriving DecidableEq

/-- TimeInForce from src/src/core/types.h. -/
inductive TimeInForce where
  | Day
  | Ioc
  | Fok
  | Gtc
deriving DecidableEq

/-- OrderStatus from src/src/core/types.h. -/
inductive OrderStatus where
  | Incoming
  | PartiallyFilled
  | Filled
  | Cancelled
  | Rejected
deriving DecidableEq

/-- Order from src/src/core/types.h.  The C++ field named TimeInForce is
called tif here because the field and its type cannot share a name in Lean. -/
structure Order where
  orderID : Nat
  symbolID : Nat
  side : Side
  orderType : OrderType
  tif : TimeInForce
  price : Nat
  quantity : Nat
  filledQuantity : Nat
  status : OrderStatus
  timestamp : Nat
deriving DecidableEq

/-- Trade from src/src/core/types.h. -/
structure Trade where
  trade_id : Nat
  buy_order_id : Nat
  sell_order_id : Nat
  symbol_id : Nat
  price : Nat
  quantity : Nat
  timestamp : Nat
  aggressor_side : Side
deriving DecidableEq

/-- MatchingEngine::PriceLevel (matching_engine.h).  The intrusive doubly
linked list is a Lean list in FIFO order (head = first_order, appended at
last_order).  order_count is kept as its own field exactly as in the source. -/
structure PriceLevel where
  price : Nat
  total_quantity : Nat
  order_count : Nat
  orders : List Order
deriving DecidableEq

/-- PriceLevel::add_order: append at the tail of the FIFO list, add the
quantity to total_quantity and bump order_count. -/
def PriceLevel.add_order (lv : PriceLevel) (o : Order) : PriceLevel :=
  { lv with orders := lv.orders ++ [o],
            total_quantity := lv.total_quantity + o.quantity,
            order_count := lv.order_count + 1 }

/-- MatchingEngine state (matching_engine.h).  bid_levels and ask_levels are
the two std maps, kept as lists of levels in ascending price order (the std
map key order); order_lookup maps a resting order id to the (side, price) of
its entry; the two pools are modelled by their free-slot counts (capacities
10000 and 1000); next_trade_id models the static trade_id_generator. -/
structure MatchingEngine where
  bid_levels : List PriceLevel
  ask_levels : List PriceLevel
  order_lookup : List (Nat × Side × Nat)
  order_pool_free : Nat
  trade_pool_free : Nat
  next_trade_id : Nat
  total_orders_processed : Nat
  total_trades_generated : Nat
  total_volume_matched : Nat
deriving DecidableEq

/-- A freshly constructed engine: empty books, empty lookup, full pools
(LockFreeMemoryPool capacities 10000 and 1000), trade_id_generator at 1. -/
def MatchingEngine.init : MatchingEngine :=
  { bid_levels := [], ask_levels := [], order_lookup := [],
    order_pool_free := 10000, trade_pool_free := 1000, next_trade_id := 1,
    total_orders_processed := 0, total_trades_generated := 0,
    total_volume_matched := 0 }

/-- MatchingEngine::determine_aggressor_side. -/
def determine_aggressor_side (b s : Order) : Side :=
  if s.timestamp < b.timestamp then Side.Buy else Side.Sell

/-- The Trade record built by MatchingEngine::create_trade (the pool acquire
and the statistics bump are handled at the call sites; the hardware timestamp
is not modelled and recorded as 0). -/
def create_trade (b s : Order) (trade_price trade_qty ntid : Nat) : Trade :=
  { trade_id := ntid, buy_order_id := b.orderID, sell_order_id := s.orderID,
    symbol_id := b.symbolID, price := trade_price, quantity := trade_qty,
    timestamp := 0, aggressor_side := determine_aggressor_side b s }

/-- Result of sweeping the FIFO list of one price level (the inner while loop
of match_buy_order / match_sell_order): surviving orders, trades emitted at
the level, remaining incoming quantity, quantity consumed from the level,
ids of fully filled resting orders (erased from order_lookup and released to
the order pool), and the trade pool count and trade id counter after. -/
structure FillRes where
  orders : List Order
  trades : List Trade
  remaining : Nat
  consumed : Nat
  removedIds : List Nat
  tpf : Nat
  ntid : Nat

/-- The inner while loop of match_buy_order (lines 219-257) and of
match_sell_order (lines 296-334), which are mirror images; incomingIsBuy
selects which one.  Walks the FIFO list from the head while remaining > 0.
For each resting order: trade_qty = min(remaining, resting.quantity); if the
trade pool is exhausted create_trade fails and the order is skipped with no
state change; otherwise quantities are updated and a fully filled resting
order is unlinked (its id collected for order_lookup erasure and pool
release).  Nat subtraction agrees with the uint64 subtraction here because
trade_qty never exceeds either remaining or the resting quantity. -/
def fillOrders (incomingIsBuy : Bool) (working : Order) (level_price : Nat) :
    List Order → Nat → Nat → Nat → FillRes
  | [], remaining, tpf, ntid =>
      { orders := [], trades := [], remaining := remaining, consumed := 0,
        removedIds := [], tpf := tpf, ntid := ntid }
  | o :: rest, remaining, tpf, ntid =>
      if remaining = 0 then
        { orders := o :: rest, trades := [], remaining := remaining,
          consumed := 0, removedIds := [], tpf := tpf, ntid := ntid }
      else if tpf = 0 then
        let fr := fillOrders incomingIsBuy working level_price rest remaining tpf ntid
        { fr with orders := o :: fr.orders }
      else
        let tq := min remaining o.quantity
        let t := if incomingIsBuy then create_trade working o level_price tq ntid
                 else create_trade o working level_price tq ntid
        if o.quantity - tq = 0 then
          let fr := fillOrders incomingIsBuy working level_price rest
                      (remaining - tq) (tpf - 1) (ntid + 1)
          { fr with trades := t :: fr.trades, consumed := tq + fr.consumed,
                    removedIds := o.orderID :: fr.removedIds }
        else
          let fr := fillOrders incomingIsBuy working level_price rest
                      (remaining - tq) (tpf - 1) (ntid + 1)
          { fr with
            orders := { o with quantity := o.quantity - tq,
                               filledQuantity := o.filledQuantity + tq,
                               status := OrderStatus.PartiallyFilled } :: fr.orders,
            trades := t :: fr.trades, consumed := tq + fr.consumed }

/-- The crossing condition of the outer while loops: a buy matches an ask
level with level price at most the buy price; a sell matches a bid level with
level price at least the sell price. -/
def price_cross (incomingIsBuy : Bool) (incoming_price level_price : Nat) : Bool :=
  if incomingIsBuy then decide (level_price ≤ incoming_price)
  else decide (incoming_price ≤ level_price)

/-- Result of the outer level sweep: the surviving levels (in matching order),
all trades, the final remaining quantity, all removed resting ids, and the
trade pool count and trade id counter after. -/
structure SweepRes where
  levels : List PriceLevel
  trades : List Trade
  remaining : Nat
  removedIds : List Nat
  tpf : Nat
  ntid : Nat

/-- The outer while loop of match_buy_order / match_sell_order.  The input
levels are listed in matching order: asks ascending as stored, bids reversed
so the highest bid comes first.  A level is processed while it crosses and
remaining > 0; an emptied level (order_count 0) is erased.  The reverse
iterator restart after erasing a bid level in the source always resumes at
the very next level in this order (the erased level is always the current
head of the walk, because a level can only empty while the trade pool still
produced trades, and the pool count never grows during one call), so plain
recursion is the same sweep.  The two Nat subtractions agree with uint64 and
uint32 for consistent levels (consumed at most total_quantity, removals at
most order_count). -/
def sweepLevels (incomingIsBuy : Bool) (working : Order) :
    List PriceLevel → Nat → Nat → Nat → SweepRes
  | [], remaining, tpf, ntid =>
      { levels := [], trades := [], remaining := remaining, removedIds := [],
        tpf := tpf, ntid := ntid }
  | lv :: rest, remaining, tpf, ntid =>
      if price_cross incomingIsBuy working.price lv.price ∧ 0 < remaining then
        let fr := fillOrders incomingIsBuy working lv.price lv.orders remaining tpf ntid
        let lvNew : PriceLevel :=
          { price := lv.price, total_quantity := lv.total_quantity - fr.consumed,
            order_count := lv.order_count - fr.removedIds.length, orders := fr.orders }
        let sr := sweepLevels incomingIsBuy working rest fr.remaining fr.tpf fr.ntid
        { levels := if lvNew.order_count = 0 then sr.levels else lvNew :: sr.levels,
          trades := fr.trades ++ sr.trades,
          remaining := sr.remaining, removedIds := fr.removedIds ++ sr.removedIds,
          tpf := sr.tpf, ntid := sr.ntid }
      else
        { levels := lv :: rest, trades := [], remaining := remaining,
          removedIds := [], tpf := tpf, ntid := ntid }

/-- MatchingEngine::MatchResult. -/
structure MatchResult where
  trades : List Trade
  fully_matched : Bool
  remaining_order : Option Order
deriving DecidableEq

/-- Erase one key from the order_lookup map (std unordered map erase). -/
def lkErase (l : List (Nat × Side × Nat)) (id : Nat) : List (Nat × Side × Nat) :=
  l.filter (fun e => decide (e.1 ≠ id))

/-- Erase a batch of keys (the per-fill erasures commute, so erasing them
together is the same map). -/
def lkEraseIds (l : List (Nat × Side × Nat)) (ids : List Nat) : List (Nat × Side × Nat) :=
  l.filter (fun e => decide (e.1 ∉ ids))

/-- Map lookup (std unordered map find). -/
def lkFind (l : List (Nat × Side × Nat)) (id : Nat) : Option (Nat × Side × Nat) :=
  l.find? (fun e => decide (e.1 = id))

/-- Insert-or-assign (the operator[] assignment in add_order_to_book). -/
def lkInsert (l : List (Nat × Side × Nat)) (id : Nat) (sd : Side) (p : Nat) :
    List (Nat × Side × Nat) :=
  (id, sd, p) :: lkErase l id

/-- Total quantity of a trade list (for the total_volume_matched counter). -/
def tradesQty (ts : List Trade) : Nat := (ts.map Trade.quantity).sum

/-- MatchingEngine::match_buy_order (lines 205-280): sweep the ask levels
lowest first, then build the remaining order (quantity = remaining, status
Incoming) when not fully matched and the order pool still has a free slot.
Fully filled resting entries were released, so the pool count first grows by
their number. -/
def match_buy_order (e : MatchingEngine) (buy : Order) : MatchResult × MatchingEngine :=
  let sr := sweepLevels true buy e.ask_levels buy.quantity e.trade_pool_free e.next_trade_id
  let opf := e.order_pool_free + sr.removedIds.length
  let fully : Bool := decide (sr.remaining = 0)
  let rem : Option Order :=
    if fully then none
    else if 0 < opf then
      some { buy with quantity := sr.remaining, status := OrderStatus.Incoming }
    else none
  let opfAfter := if fully then opf else if 0 < opf then opf - 1 else opf
  (⟨sr.trades, fully, rem⟩,
   { e with ask_levels := sr.levels,
            order_lookup := lkEraseIds e.order_lookup sr.removedIds,
            order_pool_free := opfAfter,
            trade_pool_free := sr.tpf,
            next_trade_id := sr.ntid,
            total_trades_generated := e.total_trades_generated + sr.trades.length,
            total_volume_matched := e.total_volume_matched + tradesQty sr.trades })

/-- MatchingEngine::match_sell_order (lines 282-360): the mirror sweep over
the bid levels highest first (the source walks the bid map with a reverse
iterator), then the same remaining-order construction. -/
def match_sell_order (e : MatchingEngine) (sell : Order) : MatchResult × MatchingEngine :=
  let sr := sweepLevels false sell e.bid_levels.reverse sell.quantity
              e.trade_pool_free e.next_trade_id
  let opf := e.order_pool_free + sr.removedIds.length
  let fully : Bool := decide (sr.remaining = 0)
  let rem : Option Order :=
    if fully then none
    else if 0 < opf then
      some { sell with quantity := sr.remaining, status := OrderStatus.Incoming }
    else none
  let opfAfter := if fully then opf else if 0 < opf then opf - 1 else opf
  (⟨sr.trades, fully, rem⟩,
   { e with bid_levels := sr.levels.reverse,
            order_lookup := lkEraseIds e.order_lookup sr.removedIds,
            order_pool_free := opfAfter,
            trade_pool_free := sr.tpf,
            next_trade_id := sr.ntid,
            total_trades_generated := e.total_trades_generated + sr.trades.length,
            total_volume_matched := e.total_volume_matched + tradesQty sr.trades })

/-- Insert a resting order into a side (ascending list of levels): find or
create the level keyed by the order price and append the order to its FIFO
list, exactly as add_order_to_book does through the std map. -/
def insertOrderIntoLevels : List PriceLevel → Order → List PriceLevel
  | [], o => [PriceLevel.add_order ⟨o.price, 0, 0, []⟩ o]
  | lv :: rest, o =>
      if o.price < lv.price then PriceLevel.add_order ⟨o.price, 0, 0, []⟩ o :: lv :: rest
      else if o.price = lv.price then PriceLevel.add_order lv o :: rest
      else lv :: insertOrderIntoLevels rest o

/-- MatchingEngine::add_order_to_book (lines 362-385). -/
def add_order_to_book (e : MatchingEngine) (o : Order) : MatchingEngine :=
  if o.side = Side.Buy then
    { e with bid_levels := insertOrderIntoLevels e.bid_levels o,
             order_lookup := lkInsert e.order_lookup o.orderID o.side o.price }
  else
    { e with ask_levels := insertOrderIntoLevels e.ask_levels o,
             order_lookup := lkInsert e.order_lookup o.orderID o.side o.price }

/-- MatchingEngine::process_order (lines 110-129): bump the order counter,
match by side, and rest the remainder when not fully matched and a remaining
entry was built.  No branch inspects tif or orderType. -/
def process_order (e : MatchingEngine) (incoming : Order) : MatchResult × MatchingEngine :=
  let e0 := { e with total_orders_processed := e.total_orders_processed + 1 }
  let pr := if incoming.side = Side.Buy then match_buy_order e0 incoming
            else match_sell_order e0 incoming
  match pr.1.remaining_order with
  | some o => if pr.1.fully_matched then pr else (pr.1, add_order_to_book pr.2 o)
  | none => pr

/-- Remove the first order with the given id from the FIFO list (the entry
that order_lookup points to, under the unique-resting-id invariant). -/
def removeFirstById : List Order → Nat → List Order
  | [], _ => []
  | o :: rest, id => if o.orderID = id then rest else o :: removeFirstById rest id

/-- MatchingEngine::remove_order_from_book on one side (lines 387-406): find
the level keyed by the entry price; unlink the entry, subtract its open
quantity from total_quantity, decrement order_count, and erase the level if
it became empty.  If no level holds the price nothing changes (as in the
source); the entry is in that level whenever the engine invariants hold. -/
def removeOrderFromLevels : List PriceLevel → Nat → Nat → List PriceLevel
  | [], _, _ => []
  | lv :: rest, p, id =>
      if lv.price = p then
        match lv.orders.find? (fun o => decide (o.orderID = id)) with
        | some o =>
            let lvNew : PriceLevel :=
              { lv with orders := removeFirstById lv.orders id,
                        total_quantity := lv.total_quantity - o.quantity,
                        order_count := lv.order_count - 1 }
            if lvNew.order_count = 0 then rest else lvNew :: rest
        | none => lv :: rest
      else lv :: removeOrderFromLevels rest p id

/-- MatchingEngine::cancel_order (lines 131-150): unknown id returns false
with no state change; otherwise unlink from the book, erase from
order_lookup, release the entry to the order pool, and return true. -/
def cancel_order (e : MatchingEngine) (id : Nat) : Bool × MatchingEngine :=
  match lkFind e.order_lookup id with
  | none => (false, e)
  | some ent =>
      let e1 :=
        if ent.2.1 = Side.Buy then
          { e with bid_levels := removeOrderFromLevels e.bid_levels ent.2.2 id }
        else
          { e with ask_levels := removeOrderFromLevels e.ask_levels ent.2.2 id }
      (true, { e1 with order_lookup := lkErase e1.order_lookup id,
                       order_pool_free := e1.order_pool_free + 1 })

/-- The uint64 and uint32 moduli, and the UINT64_MAX sentinel used by the
aggregator order book. -/
def UINT64_MOD : Nat := 2 ^ 64

/-- Modulus of uint32. -/
def UINT32_MOD : Nat := 2 ^ 32

/-- The best-ask sentinel UINT64_MAX. -/
def UINT64_MAX : Nat := 2 ^ 64 - 1

/-- RiskManager::RateLimiter state (risk_manager.h lines 64-110).  The
member initializer leaves tokens at 1000. -/
structure RateLimiter where
  tokens : Nat
  last_refill_time : Nat
  refill_rate : Nat
  bucket_size : Nat
deriving DecidableEq

/-- The two-argument RateLimiter constructor (risk_manager.h line 380): it
sets rate and size and records the current time, but does not touch tokens,
which keeps its member-initializer value 1000. -/
def RateLimiter.mkRateSize (rate size now : Nat) : RateLimiter :=
  { tokens := 1000, last_refill_time := now, refill_rate := rate,
    bucket_size := size }

/-- TimestampManager::tsc_to_nanoseconds (timing.h line 41): the uint64
product tsc * 1e9 can wrap, then divides by the calibrated frequency. -/
def tsc_to_nanoseconds (freq tsc : Nat) : Nat :=
  (tsc * 1000000000 % UINT64_MOD) / freq

/-- RiskManager::check_rate_limit (risk_manager.h lines 290-317), as a pure
function of the limiter state, the current hardware timestamp and the TSC
frequency.  Refill: when time advanced, tokens_to_add is the uint32 cast of
elapsed_ns * refill_rate / 1e9 (the uint64 product can wrap); when positive,
tokens becomes min(tokens + tokens_to_add, bucket_size) (uint32 addition) and
last_refill_time is updated.  Consume: the CAS loop in a single-threaded
execution takes one token and returns true when any is available, else
returns false. -/
def check_rate_limit (freq : Nat) (l : RateLimiter) (current_time : Nat) :
    Bool × RateLimiter :=
  let l1 :=
    if l.last_refill_time < current_time then
      let elapsed_ns := tsc_to_nanoseconds freq (current_time - l.last_refill_time)
      let tokens_to_add := (elapsed_ns * l.refill_rate % UINT64_MOD / 1000000000) % UINT32_MOD
      if 0 < tokens_to_add then
        { l with tokens := min ((l.tokens + tokens_to_add) % UINT32_MOD) l.bucket_size,
                 last_refill_time := current_time }
      else l
    else l
  if 0 < l1.tokens then (true, { l1 with tokens := l1.tokens - 1 })
  else (false, l1)

/-- OrderBook::Level from src/src/market_data/order_book.h (named BookLevel
here to avoid clashing with Mathlib). -/
structure BookLevel where
  price : Nat
  quantity : Nat
  order_count : Nat
deriving DecidableEq

/-- The insertion-point search of OrderBook::add_level (lines 179-199):
bids are kept descending, asks ascending; an equal price never occurs here
because add_level is only called for prices absent from the index map. -/
def insertLevelSorted (isBid : Bool) : List BookLevel → BookLevel → List BookLevel
  | [], nl => [nl]
  | lv :: rest, nl =>
      if (if isBid then decide (lv.price < nl.price) else decide (nl.price < lv.price)) then
        nl :: lv :: rest
      else lv :: insertLevelSorted isBid rest nl

/-- OrderBook::add_level (lines 172-219): when the side already holds
maxLevels levels the insertion returns with no change (book full); otherwise
the new level (order_count 1) is inserted at its sorted position. -/
def add_level (maxLevels : Nat) (isBid : Bool) (ls : List BookLevel) (p q : Nat) :
    List BookLevel :=
  if maxLevels ≤ ls.length then ls
  else insertLevelSorted isBid ls { price := p, quantity := q, order_count := 1 }

/-- Index of the level holding a price (the price_to_index map, which the
source keeps consistent with the array). -/
def findLevelIdx : List BookLevel → Nat → Option Nat
  | [], _ => none
  | lv :: rest, p =>
      if lv.price = p then some 0 else (findLevelIdx rest p).map (· + 1)

/-- OrderBook::remove_level (lines 221-239): shift the tail down over the
erased slot; an out-of-range index leaves the side unchanged, matching the
guard in the source. -/
def eraseLevelIdx : List BookLevel → Nat → List BookLevel
  | [], _ => []
  | _ :: rest, 0 => rest
  | lv :: rest, i + 1 => lv :: eraseLevelIdx rest i

/-- Overwrite the quantity of the level at an index (the update branch of
OrderBook::update_level). -/
def setLevelQty : List BookLevel → Nat → Nat → List BookLevel
  | [], _, _ => []
  | lv :: rest, 0, q => { lv with quantity := q } :: rest
  | lv :: rest, i + 1, q => lv :: setLevelQty rest i q

/-- One side of OrderBook::update_level (lines 42-64): an existing price is
removed when quantity is 0 and overwritten otherwise; an absent price with
positive quantity goes through add_level; an absent price with quantity 0
does nothing. -/
def update_level_side (maxLevels : Nat) (isBid : Bool) (ls : List BookLevel)
    (p q : Nat) : List BookLevel :=
  match findLevelIdx ls p with
  | some i => if q = 0 then eraseLevelIdx ls i else setLevelQty ls i q
  | none => if 0 < q then add_level maxLevels isBid ls p q else ls

/-- The aggregator OrderBook (order_book.h).  maxLevels models the MaxLevels
template parameter; the four best-price atoms and the version counter are
plain fields of the single-writer state. -/
structure OrderBook where
  maxLevels : Nat
  bids : List BookLevel
  asks : List BookLevel
  best_bid : Nat
  best_ask : Nat
  best_bid_qty : Nat
  best_ask_qty : Nat
  version : Nat
deriving DecidableEq

/-- A freshly constructed OrderBook: empty sides, best_bid 0 and the
best_ask sentinel UINT64_MAX (order_book.h lines 36-37). -/
def OrderBook.init (maxLevels : Nat) : OrderBook :=
  { maxLevels := maxLevels, bids := [], asks := [], best_bid := 0,
    best_ask := UINT64_MAX, best_bid_qty := 0, best_ask_qty := 0, version := 0 }

/-- OrderBook::update_best_prices (lines 241-261): republish the head of each
side, or 0 for an empty bid side and the UINT64_MAX sentinel for an empty
ask side. -/
def update_best_prices (ob : OrderBook) : OrderBook :=
  let ob1 :=
    match ob.bids with
    | lv :: _ => { ob with best_bid := lv.price, best_bid_qty := lv.quantity }
    | [] => { ob with best_bid := 0, best_bid_qty := 0 }
  match ob1.asks with
  | lv :: _ => { ob1 with best_ask := lv.price, best_ask_qty := lv.quantity }
  | [] => { ob1 with best_ask := UINT64_MAX, best_ask_qty := 0 }

/-- OrderBook::update_level (lines 42-64): mutate the chosen side, republish
the best-price atoms and bump the version counter. -/
def OrderBook.update_level (ob : OrderBook) (sd : Side) (p q : Nat) : OrderBook :=
  let ob1 :=
    if sd = Side.Buy then
      { ob with bids := update_level_side ob.maxLevels true ob.bids p q }
    else
      { ob with asks := update_level_side ob.maxLevels false ob.asks p q }
  let ob2 := update_best_prices ob1
  { ob2 with version := ob2.version + 1 }

/-- OrderBook::get_best_bid (line 86). -/
def get_best_bid (ob : OrderBook) : Nat := ob.best_bid

/-- OrderBook::get_best_ask (lines 90-93): the sentinel is mapped to 0. -/
def get_best_ask (ob : OrderBook) : Nat :=
  if ob.best_ask = UINT64_MAX then 0 else ob.best_ask

/-- The resting-side order id recorded in a trade: the sell id when the
incoming aggressor is a buy, else the buy id. -/
def restingId (incomingIsBuy : Bool) (t : Trade) : Nat :=
  if incomingIsBuy then t.sell_order_id else t.buy_order_id

/-- Sum of the quantities of the trades whose resting-side id is the given
order id. -/
def sumTradesFor (incomingIsBuy : Bool) (id : Nat) (ts : List Trade) : Nat :=
  tradesQty (ts.filter (fun t => decide (restingId incomingIsBuy t = id)))

/-- Resting sell order of spec scenarios S2 and S5: id 1, 100 at 10100. -/
def restingSell : Order :=
  { orderID := 1, symbolID := 1, side := Side.Sell, orderType := OrderType.Limit,
    tif := TimeInForce.Gtc, price := 10100, quantity := 100, filledQuantity := 0,
    status := OrderStatus.Incoming, timestamp := 1 }

/-- Engine after the resting sell has been processed into the empty book. -/
def engineWithSell : MatchingEngine :=
  (process_order MatchingEngine.init restingSell).2

/-- Incoming GTC buy of scenario S2: id 2, 150 at 10100. -/
def gtcBuy150 : Order :=
  { orderID := 2, symbolID := 1, side := Side.Buy, orderType := OrderType.Limit,
    tif := TimeInForce.Gtc, price := 10100, quantity := 150, filledQuantity := 0,
    status := OrderStatus.Incoming, timestamp := 2 }

/-- Scenario S2 outcome: one trade of quantity 100, remainder 50 rested. -/
def s2Result : MatchResult × MatchingEngine := process_order engineWithSell gtcBuy150

/-- Incoming IOC buy of scenario S5: id 2, 200 at 10100. -/
def iocBuy200 : Order :=
  { orderID := 2, symbolID := 1, side := Side.Buy, orderType := OrderType.Limit,
    tif := TimeInForce.Ioc, price := 10100, quantity := 200, filledQuantity := 0,
    status := OrderStatus.Incoming, timestamp := 2 }

/-- Scenario S5 outcome under the source semantics. -/
def s5Result : MatchResult × MatchingEngine := process_order engineWithSell iocBuy200

/-- An FOK buy exceeding available liquidity: id 2, 150 at 10100. -/
def fokBuy150 : Order :=
  { orderID := 2, symbolID := 1, side := Side.Buy, orderType := OrderType.Limit,
    tif := TimeInForce.Fok, price := 10100, quantity := 150, filledQuantity := 0,
    status := OrderStatus.Incoming, timestamp := 2 }

/-- The FOK scenario outcome under the source semantics. -/
def fokResult : MatchResult × MatchingEngine := process_order engineWithSell fokBuy150

/-- Looking a key up after erasing it from order_lookup yields nothing. -/
theorem lkFind_lkErase (l : List (Nat × Side × Nat)) (id : Nat) :
    lkFind (lkErase l id) id = none := by
  simp [lkFind, lkErase, List.find?_eq_none, List.mem_filter]

/-- Looking a key up right after inserting it yields the inserted value. -/
theorem lkFind_lkInsert (l : List (Nat × Side × Nat)) (id : Nat) (sd : Side) (p : Nat) :
    lkFind (lkInsert l id sd p) id = some (id, sd, p) := by
  simp [lkInsert, lkFind, List.find?_cons]

/-- A cancel of an id absent from order_lookup is a no-op returning false. -/
theorem cancel_order_not_found (e : MatchingEngine) (id : Nat)
    (h : lkFind e.order_lookup id = none) : cancel_order e id = (false, e) := by
  simp [cancel_order, h]

/-- C7: cancel_order is idempotent in outcome.  A cancel of an id absent from
order_lookup returns false and leaves the whole engine state (book levels,
order_lookup, statistics and pool counters) unchanged; and after a successful
cancel of an id, a second cancel of the same id returns false and again leaves
the state unchanged. -/
theorem C7_cancel_idempotent (e : MatchingEngine) (id : Nat) :
    (lkFind e.order_lookup id = none → cancel_order e id = (false, e)) ∧
    ((cancel_order e id).1 = true →
      cancel_order (cancel_order e id).2 id = (false, (cancel_order e id).2)) := by
  constructor
  · intro h
    exact cancel_order_not_found e id h
  · intro h
    rcases hf : lkFind e.order_lookup id with _ | ent
    · rw [cancel_order] at h
      rw [hf] at h
      simp at h
    · have hl : (cancel_order e id).2.order_lookup = lkErase e.order_lookup id := by
        by_cases hb : ent.2.1 = Side.Buy <;> simp [cancel_order, hf, hb]
      have hnone : lkFind (cancel_order e id).2.order_lookup id = none := by
        rw [hl]
        exact lkFind_lkErase _ _
      exact cancel_order_not_found _ id hnone

/-- Witness for C7 at a concrete engine: id 99 is absent and its cancel is a
no-op returning false; id 1 is resting, its first cancel succeeds and the
second cancel returns false without side effects. -/
theorem C7_witness :
    (lkFind engineWithSell.order_lookup 99 = none ∧
      cancel_order engineWithSell 99 = (false, engineWithSell)) ∧
    ((cancel_order engineWithSell 1).1 = true ∧
      cancel_order (cancel_order engineWithSell 1).2 1 =
        (false, (cancel_order engineWithSell 1).2)) :=
  ⟨⟨by decide, (C7_cancel_idempotent engineWithSell 99).1 (by decide)⟩,
   ⟨by decide, (C7_cancel_idempotent engineWithSell 1).2 (by decide)⟩⟩

/-- C3: the source ignores tif.  In spec scenario S5 (resting sell of 100 at
10100, incoming IOC buy of 200 at 10100) the engine emits the expected trade
of quantity 100 but then rests the 100-quantity remainder as a new bid at
10100 and registers id 2 in order_lookup, instead of dropping it. -/
theorem C3_ioc_remainder_is_rested :
    s5Result.1.trades = [⟨1, 2, 1, 1, 10100, 100, 0, Side.Buy⟩] ∧
    s5Result.2.bid_levels = [⟨10100, 100, 1, [{ iocBuy200 with quantity := 100 }]⟩] ∧
    lkFind s5Result.2.order_lookup 2 = some (2, Side.Buy, 10100) := by decide

/-- C4: the source has no all-or-nothing handling for FOK.  With only 100
resting at 10100 and an incoming FOK buy of 150 at 10100, the engine emits a
partial trade and mutates the book (the ask side is emptied and the
50-quantity remainder rests as a bid) instead of rolling back. -/
theorem C4_fok_partial_fill_executes :
    fokResult.1.trades = [⟨1, 2, 1, 1, 10100, 100, 0, Side.Buy⟩] ∧
    fokResult.2.ask_levels = [] ∧
    engineWithSell.ask_levels ≠ [] ∧
    fokResult.2.bid_levels = [⟨10100, 50, 1, [{ fokBuy150 with quantity := 50 }]⟩] := by decide

/-- Counterexample to C2: in spec scenario S2 the incoming buy (id 2) is hit
for 100, so the trades involving it sum to 100, yet its rested remainder
carries filledQuantity 0 — conservation fails for the rested remainder of a
partially matched incoming order. -/
theorem C2_counterexample :
    (∀ t ∈ s2Result.1.trades, t.buy_order_id = 2) ∧
    tradesQty s2Result.1.trades = 100 ∧
    s2Result.2.bid_levels = [⟨10100, 50, 1, [{ gtcBuy150 with quantity := 50 }]⟩] ∧
    ({ gtcBuy150 with quantity := 50 } : Order).filledQuantity = 0 ∧
    (0 : Nat) ≠ 100 := by decide

/-- Counterexample to C5: in spec scenario S2 the remainder of the incoming
GTC buy rests with status Incoming, not PartiallyFilled. -/
theorem C5_counterexample :
    s2Result.1.trades.length = 1 ∧
    s2Result.2.bid_levels = [⟨10100, 50, 1, [{ gtcBuy150 with quantity := 50 }]⟩] ∧
    ({ gtcBuy150 with quantity := 50 } : Order).status = OrderStatus.Incoming ∧
    OrderStatus.Incoming ≠ OrderStatus.PartiallyFilled := by decide

/-- Counterexample to C8: the two-argument RateLimiter constructor leaves the
token count at its member-initializer value 1000, so a per-symbol limiter
built with bucket size 100 starts at 1000 tokens, and a check with no refill
succeeds leaving 999 tokens — outside [0, bucket]. -/
theorem C8_counterexample :
    (RateLimiter.mkRateSize 100 100 5).tokens = 1000 ∧
    (check_rate_limit 1000000000 (RateLimiter.mkRateSize 100 100 5) 5).1 = true ∧
    (check_rate_limit 1000000000 (RateLimiter.mkRateSize 100 100 5) 5).2.tokens = 999 ∧
    ¬((check_rate_limit 1000000000 (RateLimiter.mkRateSize 100 100 5) 5).2.tokens ≤
      (RateLimiter.mkRateSize 100 100 5).bucket_size) := by decide

/-- Counterexample to C9: with MaxLevels 2 and a full bid side holding prices
100 and 90, inserting the new price 110 — better than the worst stored level
90, indeed better than the best — is silently dropped, refuting the claim
that only insertions at prices worse than the worst stored level are
dropped. -/
theorem C9_counterexample :
    (((OrderBook.init 2).update_level Side.Buy 100 10).update_level Side.Buy 90 5).bids =
      [⟨100, 10, 1⟩, ⟨90, 5, 1⟩] ∧
    ((((OrderBook.init 2).update_level Side.Buy 100 10).update_level Side.Buy 90 5).update_level
        Side.Buy 110 7).bids = [⟨100, 10, 1⟩, ⟨90, 5, 1⟩] ∧
    ¬(110 < 90) ∧ ¬(110 < 100) := by decide

/-- Republishing the best-price atoms does not change the level arrays. -/
theorem update_best_prices_sides (ob : OrderBook) :
    (update_best_prices ob).bids = ob.bids ∧ (update_best_prices ob).asks = ob.asks := by
  unfold update_best_prices
  rcases hb : ob.bids with _ | ⟨b, tb⟩ <;> rcases ha : ob.asks with _ | ⟨a, ta⟩ <;> simp [hb, ha]

/-- With an empty ask side the republished best ask is the sentinel. -/
theorem update_best_prices_ask_empty (ob : OrderBook) (h : ob.asks = []) :
    (update_best_prices ob).best_ask = UINT64_MAX := by
  unfold update_best_prices
  rcases hb : ob.bids with _ | ⟨b, tb⟩ <;> simp [hb, h]

/-- With an empty bid side the republished best bid is 0. -/
theorem update_best_prices_bid_empty (ob : OrderBook) (h : ob.bids = []) :
    (update_best_prices ob).best_bid = 0 := by
  unfold update_best_prices
  rcases ha : ob.asks with _ | ⟨a, ta⟩ <;> simp [ha, h]

/-- update_level republishes through update_best_prices and only then bumps
the version, so its best atoms are those of update_best_prices on the
mutated sides. -/
theorem update_level_shape (ob : OrderBook) (sd : Side) (p q : Nat) :
    OrderBook.update_level ob sd p q =
      (fun ob2 => { ob2 with version := ob2.version + 1 })
        (update_best_prices
          (if sd = Side.Buy then
            { ob with bids := update_level_side ob.maxLevels true ob.bids p q }
           else
            { ob with asks := update_level_side ob.maxLevels false ob.asks p q })) := by
  rfl

/-- C10: the empty-side sentinels are never leaked by the getters.  A fresh
book holds the UINT64_MAX best-ask sentinel yet get_best_ask returns 0;
get_best_ask never returns UINT64_MAX for any book; and after any
update_level call, an empty ask side leaves the sentinel in the best_ask atom
with get_best_ask returning 0, while an empty bid side leaves best_bid 0 with
get_best_bid returning 0. -/
theorem C10_best_price_sentinels :
    (∀ ml : Nat, (OrderBook.init ml).best_ask = UINT64_MAX ∧
      get_best_ask (OrderBook.init ml) = 0) ∧
    (∀ ob : OrderBook, get_best_ask ob ≠ UINT64_MAX) ∧
    (∀ (ob : OrderBook) (sd : Side) (p q : Nat),
      ((OrderBook.update_level ob sd p q).asks = [] →
        (OrderBook.update_level ob sd p q).best_ask = UINT64_MAX ∧
        get_best_ask (OrderBook.update_level ob sd p q) = 0) ∧
      ((OrderBook.update_level ob sd p q).bids = [] →
        get_best_bid (OrderBook.update_level ob sd p q) = 0)) := by
  refine ⟨fun ml => ⟨rfl, by simp [get_best_ask, OrderBook.init]⟩, fun ob => ?_, ?_⟩
  · unfold get_best_ask
    split
    · intro hz
      rw [UINT64_MAX] at hz
      omega
    · assumption
  · intro ob sd p q
    have hask : (OrderBook.update_level ob sd p q).asks =
        (if sd = Side.Buy then
          { ob with bids := update_level_side ob.maxLevels true ob.bids p q }
         else
          { ob with asks := update_level_side ob.maxLevels false ob.asks p q }).asks := by
      rw [update_level_shape]
      exact (update_best_prices_sides _).2
    have hbid : (OrderBook.update_level ob sd p q).bids =
        (if sd = Side.Buy then
          { ob with bids := update_level_side ob.maxLevels true ob.bids p q }
         else
          { ob with asks := update_level_side ob.maxLevels false ob.asks p q }).bids := by
      rw [update_level_shape]
      exact (update_best_prices_sides _).1
    constructor
    · intro h
      have hA : (OrderBook.update_level ob sd p q).best_ask = UINT64_MAX := by
        rw [update_level_shape]
        exact update_best_prices_ask_empty _ (by rw [hask] at h; exact h)
      exact ⟨hA, by simp [get_best_ask, hA]⟩
    · intro h
      have hB : (OrderBook.update_level ob sd p q).best_bid = 0 := by
        rw [update_level_shape]
        exact update_best_prices_bid_empty _ (by rw [hbid] at h; exact h)
      simp [get_best_bid, hB]

/-- Witness for C10 at a concrete book: removing nothing from a fresh book
keeps both sides empty, the best-ask atom holds the sentinel and both getters
return 0. -/
theorem C10_witness :
    ((OrderBook.update_level (OrderBook.init 5) Side.Sell 100 0).asks = [] ∧
      (OrderBook.update_level (OrderBook.init 5) Side.Sell 100 0).best_ask = UINT64_MAX ∧
      get_best_ask (OrderBook.update_level (OrderBook.init 5) Side.Sell 100 0) = 0) ∧
    ((OrderBook.update_level (OrderBook.init 5) Side.Sell 100 0).bids = [] ∧
      get_best_bid (OrderBook.update_level (OrderBook.init 5) Side.Sell 100 0) = 0) :=
  ⟨⟨by decide,
    (C10_best_price_sentinels.2.2 (OrderBook.init 5) Side.Sell 100 0).1 (by decide)⟩,
   ⟨by decide,
    (C10_best_price_sentinels.2.2 (OrderBook.init 5) Side.Sell 100 0).2 (by decide)⟩⟩

/-- The price index misses exactly the prices absent from the side. -/
theorem findLevelIdx_eq_none (ls : List BookLevel) (p : Nat) :
    findLevelIdx ls p = none ↔ p ∉ ls.map BookLevel.price := by
  induction ls with
  | nil => simp [findLevelIdx]
  | cons lv rest ih =>
      by_cases h : lv.price = p
      · simp [findLevelIdx, h]
      · simp [findLevelIdx, h, ih, Option.map_eq_none', Ne.symm h]

/-- A hit in the price index is a valid array index. -/
theorem findLevelIdx_lt (ls : List BookLevel) (p i : Nat)
    (h : findLevelIdx ls p = some i) : i < ls.length := by
  induction ls generalizing i with
  | nil => simp [findLevelIdx] at h
  | cons lv rest ih =>
      by_cases hp : lv.price = p
      · simp [findLevelIdx, hp] at h
        simp [← h]
      · rcases hf : findLevelIdx rest p with _ | j
        · rw [findLevelIdx] at h
          rw [if_neg hp, hf] at h
          simp at h
        · rw [findLevelIdx] at h
          rw [if_neg hp, hf] at h
          simp at h
          have := ih j hf
          simp
          omega

/-- Overwriting one quantity keeps the number of levels. -/
theorem setLevelQty_length (ls : List BookLevel) (i q : Nat) :
    (setLevelQty ls i q).length = ls.length := by
  induction ls generalizing i with
  | nil => rfl
  | cons lv rest ih =>
      cases i with
      | zero => simp [setLevelQty]
      | succ j => simp [setLevelQty, ih]

/-- Overwriting the quantity at the index of a stored price leaves a level
with that price and the new quantity. -/
theorem setLevelQty_spec (ls : List BookLevel) (p q i : Nat)
    (h : findLevelIdx ls p = some i) :
    ∃ lv ∈ setLevelQty ls i q, lv.price = p ∧ lv.quantity = q := by
  induction ls generalizing i with
  | nil => simp [findLevelIdx] at h
  | cons lv rest ih =>
      by_cases hp : lv.price = p
      · have hi : i = 0 := by
          simp [findLevelIdx, hp] at h
          omega
        subst hi
        exact ⟨{ lv with quantity := q }, by simp [setLevelQty], hp, rfl⟩
      · rcases hf : findLevelIdx rest p with _ | j
        · rw [findLevelIdx] at h
          rw [if_neg hp, hf] at h
          simp at h
        · have hi : i = j + 1 := by
            rw [findLevelIdx] at h
            rw [if_neg hp, hf] at h
            simp at h
            omega
          subst hi
          obtain ⟨lv2, hm, hp2, hq2⟩ := ih j hf
          exact ⟨lv2, by simp [setLevelQty]; exact Or.inr hm, hp2, hq2⟩

/-- Erasing a valid index removes exactly one level. -/
theorem eraseLevelIdx_length (ls : List BookLevel) (i : Nat) (h : i < ls.length) :
    (eraseLevelIdx ls i).length + 1 = ls.length := by
  induction ls generalizing i with
  | nil => simp at h
  | cons lv rest ih =>
      cases i with
      | zero => simp [eraseLevelIdx]
      | succ j =>
          have := ih j (by simpa using h)
          simp [eraseLevelIdx]
          omega

/-- With distinct stored prices, erasing the index of a price removes it from
the index entirely. -/
theorem findLevelIdx_erase (ls : List BookLevel) (p i : Nat)
    (hnd : (ls.map BookLevel.price).Nodup) (h : findLevelIdx ls p = some i) :
    findLevelIdx (eraseLevelIdx ls i) p = none := by
  induction ls generalizing i with
  | nil => simp [findLevelIdx] at h
  | cons lv rest ih =>
      by_cases hp : lv.price = p
      · have hi : i = 0 := by
          simp [findLevelIdx, hp] at h
          omega
        subst hi
        have hmem : p ∉ rest.map BookLevel.price := by
          have hx := hnd
          rw [List.map_cons, List.nodup_cons] at hx
          rw [← hp]
          exact hx.1
        exact (findLevelIdx_eq_none rest p).mpr hmem
      · rcases hf : findLevelIdx rest p with _ | j
        · rw [findLevelIdx] at h
          rw [if_neg hp, hf] at h
          simp at h
        · have hi : i = j + 1 := by
            rw [findLevelIdx] at h
            rw [if_neg hp, hf] at h
            simp at h
            omega
          subst hi
          have hnd2 : (rest.map BookLevel.price).Nodup := by
            have hx := hnd
            rw [List.map_cons, List.nodup_cons] at hx
            exact hx.2
          have hrec := ih j hnd2 hf
          simp [eraseLevelIdx, findLevelIdx, hp, hrec]

/-- C9 amended: at capacity (maxLevels stored levels) update_level silently
drops EVERY insertion at a new price — whether better or worse than the worst
stored level — leaving the side unchanged, while updates of an existing price
overwrite its quantity and zero-quantity removals still erase the level. -/
theorem C9_amended_full_side_drops_all_new_prices
    (ml : Nat) (isBid : Bool) (ls : List BookLevel) (p q : Nat)
    (hfull : ml ≤ ls.length) (hnd : (ls.map BookLevel.price).Nodup) :
    (findLevelIdx ls p = none → update_level_side ml isBid ls p q = ls) ∧
    (∀ i, findLevelIdx ls p = some i → 0 < q →
      (∃ lv ∈ update_level_side ml isBid ls p q, lv.price = p ∧ lv.quantity = q) ∧
      (update_level_side ml isBid ls p q).length = ls.length) ∧
    (∀ i, findLevelIdx ls p = some i → q = 0 →
      findLevelIdx (update_level_side ml isBid ls p q) p = none ∧
      (update_level_side ml isBid ls p q).length + 1 = ls.length) := by
  refine ⟨?_, ?_, ?_⟩
  · intro h
    unfold update_level_side
    rw [h]
    by_cases hq : 0 < q
    · simp [hq, add_level, hfull]
    · simp [hq]
  · intro i hi hq
    have hq0 : ¬ q = 0 := by omega
    unfold update_level_side
    rw [hi]
    simp only [if_neg hq0]
    exact ⟨setLevelQty_spec ls p q i hi, setLevelQty_length ls i q⟩
  · intro i hi hq
    subst hq
    unfold update_level_side
    rw [hi]
    simp only [if_pos rfl]
    exact ⟨findLevelIdx_erase ls p i hnd hi,
           eraseLevelIdx_length ls i (findLevelIdx_lt ls p i hi)⟩

/-- Witness for the amended C9 on a full two-level bid side: the better new
price 110 is dropped, the stored price 90 can still be overwritten, and its
zero-quantity removal still erases it. -/
theorem C9_amended_witness :
    (2 ≤ ([⟨100, 10, 1⟩, ⟨90, 5, 1⟩] : List BookLevel).length ∧
      (([⟨100, 10, 1⟩, ⟨90, 5, 1⟩] : List BookLevel).map BookLevel.price).Nodup) ∧
    update_level_side 2 true [⟨100, 10, 1⟩, ⟨90, 5, 1⟩] 110 7 =
      [⟨100, 10, 1⟩, ⟨90, 5, 1⟩] ∧
    ((∃ lv ∈ update_level_side 2 true [⟨100, 10, 1⟩, ⟨90, 5, 1⟩] 90 7,
        lv.price = 90 ∧ lv.quantity = 7) ∧
      (update_level_side 2 true [⟨100, 10, 1⟩, ⟨90, 5, 1⟩] 90 7).length =
        ([⟨100, 10, 1⟩, ⟨90, 5, 1⟩] : List BookLevel).length) ∧
    (findLevelIdx (update_level_side 2 true [⟨100, 10, 1⟩, ⟨90, 5, 1⟩] 90 0) 90 = none ∧
      (update_level_side 2 true [⟨100, 10, 1⟩, ⟨90, 5, 1⟩] 90 0).length + 1 =
        ([⟨100, 10, 1⟩, ⟨90, 5, 1⟩] : List BookLevel).length) :=
  ⟨⟨by decide, by decide⟩,
   (C9_amended_full_side_drops_all_new_prices 2 true [⟨100, 10, 1⟩, ⟨90, 5, 1⟩] 110 7
      (by decide) (by decide)).1 (by decide),
   (C9_amended_full_side_drops_all_new_prices 2 true [⟨100, 10, 1⟩, ⟨90, 5, 1⟩] 90 7
      (by decide) (by decide)).2.1 1 (by decide) (by decide),
   (C9_amended_full_side_drops_all_new_prices 2 true [⟨100, 10, 1⟩, ⟨90, 5, 1⟩] 90 0
      (by decide) (by decide)).2.2 1 (by decide) (by decide)⟩

/-- check_rate_limit in a single normalized branch: the refill applies
exactly when time advanced and the computed token gain is positive (when time
did not advance the gain expression is 0 anyway, since the elapsed tick count
is 0). -/
theorem check_rate_limit_eq (freq : Nat) (l : RateLimiter) (now : Nat) :
    check_rate_limit freq l now =
      (let add := tsc_to_nanoseconds freq (now - l.last_refill_time) * l.refill_rate
                    % UINT64_MOD / 1000000000 % UINT32_MOD
       let l1 := if l.last_refill_time < now ∧ 0 < add then
           { l with tokens := min ((l.tokens + add) % UINT32_MOD) l.bucket_size,
                    last_refill_time := now }
         else l
       if 0 < l1.tokens then (true, { l1 with tokens := l1.tokens - 1 })
       else (false, l1)) := by
  by_cases h1 : l.last_refill_time < now
  · by_cases h2 : 0 < tsc_to_nanoseconds freq (now - l.last_refill_time) * l.refill_rate
        % UINT64_MOD / 1000000000 % UINT32_MOD
    · simp [check_rate_limit, h1, h2]
    · simp [check_rate_limit, h1, h2]
  · have hd0 : now - l.last_refill_time = 0 := by omega
    have hA0 : tsc_to_nanoseconds freq (now - l.last_refill_time) * l.refill_rate
        % UINT64_MOD / 1000000000 % UINT32_MOD = 0 := by
      simp [hd0, tsc_to_nanoseconds]
    simp [check_rate_limit, h1, hA0]

/-- C8 amended: provided the limiter starts within its bucket (tokens at most
bucket_size — true for the default-constructed global limiter with bucket
1000 but not for per-symbol limiters built by the two-argument constructor,
which leaves tokens at 1000) and the refill arithmetic does not overflow
uint64/uint32, a check first adds floor(elapsed_ns * rate / 1e9) tokens
clamped to the bucket size, then consumes exactly one token and returns true,
or returns false when no token is available; the resulting token count never
exceeds the bucket size. -/
theorem C8_amended_token_bucket (l : RateLimiter) (freq now : Nat)
    (_hfreq : 0 < freq)
    (htok : l.tokens ≤ l.bucket_size)
    (hov1 : tsc_to_nanoseconds freq (now - l.last_refill_time) * l.refill_rate < UINT64_MOD)
    (hov2 : l.tokens + tsc_to_nanoseconds freq (now - l.last_refill_time) * l.refill_rate
        / 1000000000 < UINT32_MOD) :
    ((check_rate_limit freq l now).1 = true ↔
      0 < min (l.tokens + tsc_to_nanoseconds freq (now - l.last_refill_time) * l.refill_rate
        / 1000000000) l.bucket_size) ∧
    (check_rate_limit freq l now).2.tokens =
      min (l.tokens + tsc_to_nanoseconds freq (now - l.last_refill_time) * l.refill_rate
        / 1000000000) l.bucket_size -
        (if (check_rate_limit freq l now).1 = true then 1 else 0) ∧
    (check_rate_limit freq l now).2.tokens ≤ l.bucket_size ∧
    (check_rate_limit freq l now).2.bucket_size = l.bucket_size := by
  have hmod1 : tsc_to_nanoseconds freq (now - l.last_refill_time) * l.refill_rate
      % UINT64_MOD = tsc_to_nanoseconds freq (now - l.last_refill_time) * l.refill_rate :=
    Nat.mod_eq_of_lt hov1
  have hA32 : tsc_to_nanoseconds freq (now - l.last_refill_time) * l.refill_rate
      / 1000000000 % UINT32_MOD
      = tsc_to_nanoseconds freq (now - l.last_refill_time) * l.refill_rate / 1000000000 :=
    Nat.mod_eq_of_lt (by omega)
  have hTA : (l.tokens + tsc_to_nanoseconds freq (now - l.last_refill_time) * l.refill_rate
      / 1000000000) % UINT32_MOD
      = l.tokens + tsc_to_nanoseconds freq (now - l.last_refill_time) * l.refill_rate
        / 1000000000 :=
    Nat.mod_eq_of_lt hov2
  rw [check_rate_limit_eq]
  simp only [hmod1, hA32, hTA]
  by_cases hc : l.last_refill_time < now ∧
      0 < tsc_to_nanoseconds freq (now - l.last_refill_time) * l.refill_rate / 1000000000
  · simp only [if_pos hc, hTA]
    by_cases ht : 0 < min (l.tokens + tsc_to_nanoseconds freq (now - l.last_refill_time)
        * l.refill_rate / 1000000000) l.bucket_size
    · simp [ht]
    · simp [ht]
  · have hadd0 : min (l.tokens + tsc_to_nanoseconds freq (now - l.last_refill_time)
        * l.refill_rate / 1000000000) l.bucket_size = l.tokens := by
      rcases Decidable.not_and_iff_or_not.mp hc with h | h
      · have hd0 : now - l.last_refill_time = 0 := by omega
        have : tsc_to_nanoseconds freq (now - l.last_refill_time) = 0 := by
          simp [hd0, tsc_to_nanoseconds]
        rw [this]
        simp
        omega
      · have : tsc_to_nanoseconds freq (now - l.last_refill_time) * l.refill_rate
            / 1000000000 = 0 := by omega
        rw [this]
        simp
        omega
    simp only [if_neg hc, hadd0]
    by_cases ht : 0 < l.tokens
    · simp [ht]
      omega
    · simp [ht]
      omega

/-- Witness for the amended C8: a limiter with 50 of 100 tokens, rate 10 per
second, checked 10 ticks later at frequency 1 gains 100 tokens clamped to the
bucket 100, consumes one and ends at 99. -/
theorem C8_amended_witness :
    (0 < 1 ∧ (⟨50, 0, 10, 100⟩ : RateLimiter).tokens ≤ 100 ∧
      tsc_to_nanoseconds 1 10 * 10 < UINT64_MOD ∧
      50 + tsc_to_nanoseconds 1 10 * 10 / 1000000000 < UINT32_MOD) ∧
    (((check_rate_limit 1 ⟨50, 0, 10, 100⟩ 10).1 = true ↔
        0 < min (50 + tsc_to_nanoseconds 1 10 * 10 / 1000000000) 100) ∧
      (check_rate_limit 1 ⟨50, 0, 10, 100⟩ 10).2.tokens =
        min (50 + tsc_to_nanoseconds 1 10 * 10 / 1000000000) 100 -
          (if (check_rate_limit 1 ⟨50, 0, 10, 100⟩ 10).1 = true then 1 else 0) ∧
      (check_rate_limit 1 ⟨50, 0, 10, 100⟩ 10).2.tokens ≤ 100 ∧
      (check_rate_limit 1 ⟨50, 0, 10, 100⟩ 10).2.bucket_size = 100) :=
  ⟨⟨by decide, by decide, by decide, by decide⟩,
   C8_amended_token_bucket ⟨50, 0, 10, 100⟩ 1 10 (by decide) (by decide) (by decide) (by decide)⟩

/-- With no remaining quantity the inner loop does not run. -/
theorem fillOrders_rem_zero (b : Bool) (w : Order) (lp : Nat) (l : List Order)
    (tpf ntid : Nat) :
    fillOrders b w lp l 0 tpf ntid =
      { orders := l, trades := [], remaining := 0, consumed := 0,
        removedIds := [], tpf := tpf, ntid := ntid } := by
  cases l <;> rfl

/-- With the trade pool exhausted every resting order is skipped unchanged
and no trade is emitted (the pool count never recovers within one call). -/
theorem fillOrders_tpf_zero (b : Bool) (w : Order) (lp : Nat) (l : List Order)
    (rem ntid : Nat) :
    fillOrders b w lp l rem 0 ntid =
      { orders := l, trades := [], remaining := rem, consumed := 0,
        removedIds := [], tpf := 0, ntid := ntid } := by
  induction l with
  | nil => rfl
  | cons o rest ih =>
      by_cases h : rem = 0
      · subst h
        rfl
      · simp [fillOrders, h, ih]

/-- Surviving orders plus removed ids account for every order of the level. -/
theorem fillOrders_length (b : Bool) (w : Order) (lp : Nat) (l : List Order)
    (rem tpf ntid : Nat) :
    (fillOrders b w lp l rem tpf ntid).orders.length +
      (fillOrders b w lp l rem tpf ntid).removedIds.length = l.length := by
  induction l generalizing rem tpf ntid with
  | nil => rfl
  | cons o rest ih =>
      by_cases h0 : rem = 0
      · subst h0
        simp [fillOrders]
      · by_cases hp : tpf = 0
        · subst hp
          rw [fillOrders_tpf_zero]
          simp
        · simp only [fillOrders, if_neg h0, if_neg hp]
          have := ih (rem - min rem o.quantity) (tpf - 1) (ntid + 1)
          by_cases hq : o.quantity - min rem o.quantity = 0
          · simp only [if_pos hq]
            simp only [List.length_cons]
            omega
          · simp only [if_neg hq]
            simp only [List.length_cons]
            omega

/-- C6: FIFO within a price level.  Adding a resting order appends it at the
tail of the level FIFO, and one matching pass over a level consumes a prefix
of the FIFO: the removed (fully filled) orders are exactly the ids of the
first k resting orders in arrival order, and the rest of the list is either
untouched or has only its head partially filled — so an earlier order A is
always fully consumed before a later order B receives any fill. -/
theorem C6_fifo_within_level :
    (∀ (lv : PriceLevel) (o : Order), (PriceLevel.add_order lv o).orders = lv.orders ++ [o]) ∧
    (∀ (b : Bool) (w : Order) (lp : Nat) (l : List Order) (rem tpf ntid : Nat),
      ∃ k, (fillOrders b w lp l rem tpf ntid).removedIds = (l.take k).map Order.orderID ∧
        ((fillOrders b w lp l rem tpf ntid).orders = l.drop k ∨
         ∃ o rest2 tq, l.drop k = o :: rest2 ∧ 0 < tq ∧ tq < o.quantity ∧
           (fillOrders b w lp l rem tpf ntid).orders =
             { o with quantity := o.quantity - tq,
                      filledQuantity := o.filledQuantity + tq,
                      status := OrderStatus.PartiallyFilled } :: rest2)) := by
  constructor
  · intro lv o
    rfl
  · intro b w lp l
    induction l with
    | nil =>
        intro rem tpf ntid
        exact ⟨0, rfl, Or.inl rfl⟩
    | cons o rest ih =>
        intro rem tpf ntid
        by_cases h0 : rem = 0
        · subst h0
          exact ⟨0, rfl, Or.inl rfl⟩
        · by_cases hp : tpf = 0
          · subst hp
            rw [fillOrders_tpf_zero]
            exact ⟨0, rfl, Or.inl rfl⟩
          · simp only [fillOrders, if_neg h0, if_neg hp]
            by_cases hq : o.quantity - min rem o.quantity = 0
            · obtain ⟨k, hrem, hrest⟩ := ih (rem - min rem o.quantity) (tpf - 1) (ntid + 1)
              refine ⟨k + 1, ?_, ?_⟩
              · simp only [if_pos hq, List.take_succ_cons, List.map_cons]
                rw [hrem]
              · rcases hrest with h | ⟨o2, rest2, tq, hdrop, htq0, htql, hor⟩
                · left
                  simp only [if_pos hq, List.drop_succ_cons]
                  exact h
                · right
                  refine ⟨o2, rest2, tq, ?_, htq0, htql, ?_⟩
                  · simpa using hdrop
                  · simp only [if_pos hq]
                    exact hor
            · have hlt : min rem o.quantity < o.quantity := by omega
              have hmr : min rem o.quantity = rem := by omega
              have hz : rem - min rem o.quantity = 0 := by omega
              rw [hz, fillOrders_rem_zero]
              refine ⟨0, ?_, Or.inr ⟨o, rest, min rem o.quantity, rfl, ?_, hlt, ?_⟩⟩
              · simp [hq]
              · omega
              · simp [hq]

/-- Every trade emitted at a level carries the level price, and its
resting-side order id belongs to an order of the level FIFO. -/
theorem fillOrders_trades_mem (b : Bool) (w : Order) (lp : Nat) (l : List Order)
    (rem tpf ntid : Nat) :
    ∀ t ∈ (fillOrders b w lp l rem tpf ntid).trades,
      t.price = lp ∧ ∃ o ∈ l, o.orderID = restingId b t := by
  induction l generalizing rem tpf ntid with
  | nil =>
      intro t ht
      simp [fillOrders] at ht
  | cons o rest ih =>
      intro t ht
      by_cases h0 : rem = 0
      · subst h0
        rw [fillOrders_rem_zero] at ht
        simp at ht
      · by_cases hp : tpf = 0
        · subst hp
          rw [fillOrders_tpf_zero] at ht
          simp at ht
        · simp only [fillOrders, if_neg h0, if_neg hp] at ht
          by_cases hq : o.quantity - min rem o.quantity = 0
          · simp only [if_pos hq, List.mem_cons] at ht
            rcases ht with h | h
            · subst h
              cases b <;> exact ⟨rfl, o, List.mem_cons_self o rest, rfl⟩
            · obtain ⟨hpz, o2, ho2, hid⟩ := ih (rem - min rem o.quantity) (tpf - 1) (ntid + 1) t h
              exact ⟨hpz, o2, List.mem_cons_of_mem o ho2, hid⟩
          · simp only [if_neg hq, List.mem_cons] at ht
            rcases ht with h | h
            · subst h
              cases b <;> exact ⟨rfl, o, List.mem_cons_self o rest, rfl⟩
            · obtain ⟨hpz, o2, ho2, hid⟩ := ih (rem - min rem o.quantity) (tpf - 1) (ntid + 1) t h
              exact ⟨hpz, o2, List.mem_cons_of_mem o ho2, hid⟩

/-- Every trade emitted by a sweep comes from a crossed input level, carries
that level price, and its resting-side order id belongs to an order resting
at that level before the sweep. -/
theorem sweepLevels_trades_mem (b : Bool) (w : Order) (ls : List PriceLevel)
    (rem tpf ntid : Nat) :
    ∀ t ∈ (sweepLevels b w ls rem tpf ntid).trades,
      ∃ lv ∈ ls, price_cross b w.price lv.price = true ∧ t.price = lv.price ∧
        ∃ o ∈ lv.orders, o.orderID = restingId b t := by
  induction ls generalizing rem tpf ntid with
  | nil =>
      intro t ht
      simp [sweepLevels] at ht
  | cons lv rest ih =>
      intro t ht
      by_cases hc : price_cross b w.price lv.price ∧ 0 < rem
      · simp only [sweepLevels, if_pos hc, List.mem_append] at ht
        rcases ht with h | h
        · obtain ⟨hpz, o, ho, hid⟩ := fillOrders_trades_mem b w lv.price lv.orders rem tpf ntid t h
          exact ⟨lv, List.mem_cons_self lv rest, hc.1, hpz, o, ho, hid⟩
        · obtain ⟨lv2, hlv2, hcr, hpz, o, ho, hid⟩ := ih _ _ _ t h
          exact ⟨lv2, List.mem_cons_of_mem lv hlv2, hcr, hpz, o, ho, hid⟩
      · simp only [sweepLevels, if_neg hc] at ht
        simp at ht

/-- The resting step of process_order returns the match result unchanged. -/
theorem process_rest_fst (pr : MatchResult × MatchingEngine) :
    (match pr.1.remaining_order with
     | some o => if pr.1.fully_matched then pr else (pr.1, add_order_to_book pr.2 o)
     | none => pr).1 = pr.1 := by
  rcases h : pr.1.remaining_order with _ | o
  · rfl
  · by_cases hf : pr.1.fully_matched <;> simp [h, hf]

/-- The first component of process_order is the raw match result of the
side-specific matcher (the resting step only mutates the engine). -/
theorem process_order_fst (e : MatchingEngine) (incoming : Order) :
    (process_order e incoming).1 =
      (if incoming.side = Side.Buy then
        match_buy_order { e with total_orders_processed := e.total_orders_processed + 1 } incoming
       else
        match_sell_order { e with total_orders_processed := e.total_orders_processed + 1 } incoming).1 := by
  unfold process_order
  split
  · exact process_rest_fst _
  · exact process_rest_fst _

/-- C1: every emitted trade executes at the price of the opposite-side level
the matched resting order sits at, and the incoming limit is never violated:
a trade of an incoming buy is priced at an ask level at or below the buy
limit, and a trade of an incoming sell at a bid level at or above the sell
limit; the trade names a resting order of that pre-state level. -/
theorem C1_trade_at_resting_level_price (e : MatchingEngine) (incoming : Order)
    (t : Trade) (ht : t ∈ (process_order e incoming).1.trades) :
    (incoming.side = Side.Buy →
      t.price ≤ incoming.price ∧
      ∃ lv ∈ e.ask_levels, lv.price = t.price ∧ ∃ o ∈ lv.orders, o.orderID = t.sell_order_id) ∧
    (incoming.side = Side.Sell →
      incoming.price ≤ t.price ∧
      ∃ lv ∈ e.bid_levels, lv.price = t.price ∧ ∃ o ∈ lv.orders, o.orderID = t.buy_order_id) := by
  rw [process_order_fst] at ht
  constructor
  · intro hside
    rw [if_pos hside] at ht
    have hts : (match_buy_order
        { e with total_orders_processed := e.total_orders_processed + 1 } incoming).1.trades =
        (sweepLevels true incoming e.ask_levels incoming.quantity e.trade_pool_free
          e.next_trade_id).trades := rfl
    rw [hts] at ht
    obtain ⟨lv, hlv, hcr, hpz, o, ho, hid⟩ := sweepLevels_trades_mem _ _ _ _ _ _ t ht
    have hle : lv.price ≤ incoming.price := by
      have := of_decide_eq_true (by simpa [price_cross] using hcr)
      exact this
    exact ⟨hpz ▸ hle, lv, hlv, hpz.symm, o, ho, by simpa [restingId] using hid⟩
  · intro hside
    have hnb : ¬ incoming.side = Side.Buy := by
      rw [hside]
      intro h
      cases h
    rw [if_neg hnb] at ht
    have hts : (match_sell_order
        { e with total_orders_processed := e.total_orders_processed + 1 } incoming).1.trades =
        (sweepLevels false incoming e.bid_levels.reverse incoming.quantity e.trade_pool_free
          e.next_trade_id).trades := rfl
    rw [hts] at ht
    obtain ⟨lv, hlv, hcr, hpz, o, ho, hid⟩ := sweepLevels_trades_mem _ _ _ _ _ _ t ht
    have hge : incoming.price ≤ lv.price := by
      have := of_decide_eq_true (by simpa [price_cross] using hcr)
      exact this
    exact ⟨hpz ▸ hge, lv, List.mem_reverse.mp hlv, hpz.symm, o, ho,
      by simpa [restingId] using hid⟩

/-- Witness for C1: the single trade of scenario S2 is priced 10100 at the
resting ask level, within the incoming buy limit. -/
theorem C1_witness :
    ((⟨1, 2, 1, 1, 10100, 100, 0, Side.Buy⟩ : Trade) ∈
      (process_order engineWithSell gtcBuy150).1.trades) ∧
    ((gtcBuy150.side = Side.Buy →
      (⟨1, 2, 1, 1, 10100, 100, 0, Side.Buy⟩ : Trade).price ≤ gtcBuy150.price ∧
      ∃ lv ∈ engineWithSell.ask_levels,
        lv.price = (⟨1, 2, 1, 1, 10100, 100, 0, Side.Buy⟩ : Trade).price ∧
        ∃ o ∈ lv.orders,
          o.orderID = (⟨1, 2, 1, 1, 10100, 100, 0, Side.Buy⟩ : Trade).sell_order_id) ∧
    (gtcBuy150.side = Side.Sell →
      gtcBuy150.price ≤ (⟨1, 2, 1, 1, 10100, 100, 0, Side.Buy⟩ : Trade).price ∧
      ∃ lv ∈ engineWithSell.bid_levels,
        lv.price = (⟨1, 2, 1, 1, 10100, 100, 0, Side.Buy⟩ : Trade).price ∧
        ∃ o ∈ lv.orders,
          o.orderID = (⟨1, 2, 1, 1, 10100, 100, 0, Side.Buy⟩ : Trade).buy_order_id)) :=
  ⟨by decide,
   C1_trade_at_resting_level_price engineWithSell gtcBuy150
     ⟨1, 2, 1, 1, 10100, 100, 0, Side.Buy⟩ (by decide)⟩

/-- Trade quantities distribute over concatenation. -/
theorem tradesQty_append (a c : List Trade) :
    tradesQty (a ++ c) = tradesQty a + tradesQty c := by
  simp [tradesQty]

/-- Within one level, the emitted trade quantities account exactly for the
consumed incoming quantity. -/
theorem fillOrders_remaining (b : Bool) (w : Order) (lp : Nat) (l : List Order)
    (rem tpf ntid : Nat) :
    tradesQty (fillOrders b w lp l rem tpf ntid).trades +
      (fillOrders b w lp l rem tpf ntid).remaining = rem := by
  induction l generalizing rem tpf ntid with
  | nil => simp [fillOrders, tradesQty]
  | cons o rest ih =>
      by_cases h0 : rem = 0
      · subst h0
        rw [fillOrders_rem_zero]
        simp [tradesQty]
      · by_cases hp : tpf = 0
        · subst hp
          rw [fillOrders_tpf_zero]
          simp [tradesQty]
        · simp only [fillOrders, if_neg h0, if_neg hp]
          have hmin : min rem o.quantity ≤ rem := Nat.min_le_left _ _
          have := ih (rem - min rem o.quantity) (tpf - 1) (ntid + 1)
          by_cases hq : o.quantity - min rem o.quantity = 0
          · simp only [if_pos hq, tradesQty, List.map_cons, List.sum_cons]
            simp only [tradesQty] at this
            cases b <;> simp [create_trade] <;> omega
          · simp only [if_neg hq, tradesQty, List.map_cons, List.sum_cons]
            simp only [tradesQty] at this
            cases b <;> simp [create_trade] <;> omega

/-- Across the sweep, the emitted trade quantities account exactly for the
consumed incoming quantity. -/
theorem sweepLevels_remaining (b : Bool) (w : Order) (ls : List PriceLevel)
    (rem tpf ntid : Nat) :
    tradesQty (sweepLevels b w ls rem tpf ntid).trades +
      (sweepLevels b w ls rem tpf ntid).remaining = rem := by
  induction ls generalizing rem tpf ntid with
  | nil => simp [sweepLevels, tradesQty]
  | cons lv rest ih =>
      by_cases hc : price_cross b w.price lv.price ∧ 0 < rem
      · simp only [sweepLevels, if_pos hc, tradesQty_append]
        have h1 := fillOrders_remaining b w lv.price lv.orders rem tpf ntid
        have h2 := ih (fillOrders b w lv.price lv.orders rem tpf ntid).remaining
          (fillOrders b w lv.price lv.orders rem tpf ntid).tpf
          (fillOrders b w lv.price lv.orders rem tpf ntid).ntid
        omega
      · simp only [sweepLevels, if_neg hc]
        simp [tradesQty]

/-- Inserting a resting order into a side produces a level keyed by the order
price holding the order. -/
theorem insertOrder_mem (ls : List PriceLevel) (o : Order) :
    ∃ lv ∈ insertOrderIntoLevels ls o, lv.price = o.price ∧ o ∈ lv.orders := by
  induction ls with
  | nil =>
      refine ⟨PriceLevel.add_order ⟨o.price, 0, 0, []⟩ o, ?_, rfl, ?_⟩
      · simp [insertOrderIntoLevels]
      · simp [PriceLevel.add_order]
  | cons lv rest ih =>
      by_cases h1 : o.price < lv.price
      · refine ⟨PriceLevel.add_order ⟨o.price, 0, 0, []⟩ o, ?_, rfl, ?_⟩
        · simp [insertOrderIntoLevels, h1]
        · simp [PriceLevel.add_order]
      · by_cases h2 : o.price = lv.price
        · refine ⟨PriceLevel.add_order lv o, ?_, ?_, ?_⟩
          · simp [insertOrderIntoLevels, h1, h2]
          · simp [PriceLevel.add_order]
            exact h2.symm
          · simp [PriceLevel.add_order]
        · obtain ⟨lv2, hm, hp2, ho2⟩ := ih
          refine ⟨lv2, ?_, hp2, ho2⟩
          simp only [insertOrderIntoLevels, if_neg h1, if_neg h2]
          exact List.mem_cons_of_mem lv hm

/-- When match_buy_order hands back a remaining order, it is the incoming
order with quantity replaced by the unmatched remainder and status reset to
Incoming, and the result is marked not fully matched. -/
theorem match_buy_order_rem (e : MatchingEngine) (buy w : Order)
    (h : (match_buy_order e buy).1.remaining_order = some w) :
    w = { buy with
          quantity := (sweepLevels true buy e.ask_levels buy.quantity e.trade_pool_free
            e.next_trade_id).remaining,
          status := OrderStatus.Incoming } ∧
    (match_buy_order e buy).1.fully_matched = false := by
  unfold match_buy_order at h ⊢
  by_cases hf : (sweepLevels true buy e.ask_levels buy.quantity e.trade_pool_free
      e.next_trade_id).remaining = 0
  · simp [hf] at h
  · by_cases hp : 0 < e.order_pool_free + (sweepLevels true buy e.ask_levels buy.quantity
        e.trade_pool_free e.next_trade_id).removedIds.length
    · constructor
      · have h2 := h
        simp [decide_eq_false hf, hp] at h2
        exact h2.symm
      · simp [decide_eq_false hf, hp]
    · simp [hf, hp] at h

/-- Mirror of match_buy_order_rem for the sell side. -/
theorem match_sell_order_rem (e : MatchingEngine) (sell w : Order)
    (h : (match_sell_order e sell).1.remaining_order = some w) :
    w = { sell with
          quantity := (sweepLevels false sell e.bid_levels.reverse sell.quantity
            e.trade_pool_free e.next_trade_id).remaining,
          status := OrderStatus.Incoming } ∧
    (match_sell_order e sell).1.fully_matched = false := by
  unfold match_sell_order at h ⊢
  by_cases hf : (sweepLevels false sell e.bid_levels.reverse sell.quantity e.trade_pool_free
      e.next_trade_id).remaining = 0
  · simp [hf] at h
  · by_cases hp : 0 < e.order_pool_free + (sweepLevels false sell e.bid_levels.reverse
        sell.quantity e.trade_pool_free e.next_trade_id).removedIds.length
    · constructor
      · have h2 := h
        simp [decide_eq_false hf, hp] at h2
        exact h2.symm
      · simp [decide_eq_false hf, hp]
    · simp [hf, hp] at h

/-- When the matcher hands back a remaining order and the match is not full,
process_order rests it through add_order_to_book. -/
theorem process_order_snd_of_rem (e : MatchingEngine) (incoming w : Order)
    (hw : (if incoming.side = Side.Buy then
        match_buy_order { e with total_orders_processed := e.total_orders_processed + 1 } incoming
      else
        match_sell_order { e with total_orders_processed := e.total_orders_processed + 1 }
          incoming).1.remaining_order = some w)
    (hf : (if incoming.side = Side.Buy then
        match_buy_order { e with total_orders_processed := e.total_orders_processed + 1 } incoming
      else
        match_sell_order { e with total_orders_processed := e.total_orders_processed + 1 }
          incoming).1.fully_matched = false) :
    (process_order e incoming).2 =
      add_order_to_book (if incoming.side = Side.Buy then
        match_buy_order { e with total_orders_processed := e.total_orders_processed + 1 } incoming
      else
        match_sell_order { e with total_orders_processed := e.total_orders_processed + 1 }
          incoming).2 w := by
  simp only [process_order]
  by_cases hside : incoming.side = Side.Buy
  · rw [if_pos hside] at hw hf ⊢
    simp only [hw, hf]
    simp
  · rw [if_neg hside] at hw hf ⊢
    simp only [hw, hf]
    simp

/-- C5 amended: a partially matched Limit order with tif Day or GTC has its
remainder rested into its own side at its own limit price and registered in
order_lookup under its id, with quantity equal to the unmatched remainder —
but the rested entry keeps status Incoming (not PartiallyFilled) and its
filledQuantity stays at the submitted value. -/
theorem C5_amended_remainder_rests (e : MatchingEngine) (o : Order)
    (_hlim : o.orderType = OrderType.Limit)
    (_htif : o.tif = TimeInForce.Day ∨ o.tif = TimeInForce.Gtc)
    (_htr : (process_order e o).1.trades ≠ [])
    (w : Order)
    (hw : (process_order e o).1.remaining_order = some w) :
    w.orderID = o.orderID ∧ w.price = o.price ∧ w.side = o.side ∧
    w.status = OrderStatus.Incoming ∧ w.filledQuantity = o.filledQuantity ∧
    w.quantity + tradesQty (process_order e o).1.trades = o.quantity ∧
    (∃ lv ∈ (if o.side = Side.Buy then (process_order e o).2.bid_levels
             else (process_order e o).2.ask_levels),
       lv.price = o.price ∧ w ∈ lv.orders) ∧
    lkFind (process_order e o).2.order_lookup o.orderID = some (o.orderID, o.side, o.price) := by
  by_cases hside : o.side = Side.Buy
  · have hw2 : (match_buy_order { e with total_orders_processed :=
        e.total_orders_processed + 1 } o).1.remaining_order = some w := by
      rw [process_order_fst, if_pos hside] at hw
      exact hw
    obtain ⟨hwe, hfm⟩ := match_buy_order_rem _ _ _ hw2
    have hwid : w.orderID = o.orderID := by rw [hwe]
    have hwpr : w.price = o.price := by rw [hwe]
    have hwsd : w.side = o.side := by rw [hwe]
    have hwst : w.status = OrderStatus.Incoming := by rw [hwe]
    have hwfq : w.filledQuantity = o.filledQuantity := by rw [hwe]
    have hpost : (process_order e o).2 =
        add_order_to_book (match_buy_order { e with total_orders_processed :=
          e.total_orders_processed + 1 } o).2 w := by
      have hx := process_order_snd_of_rem e o w
        (by rw [if_pos hside]; exact hw2) (by rw [if_pos hside]; exact hfm)
      rw [if_pos hside] at hx
      exact hx
    have htrades : (process_order e o).1.trades =
        (sweepLevels true o e.ask_levels o.quantity e.trade_pool_free e.next_trade_id).trades := by
      rw [process_order_fst, if_pos hside]
      rfl
    have hq : w.quantity + tradesQty (process_order e o).1.trades = o.quantity := by
      rw [htrades, hwe]
      have := sweepLevels_remaining true o e.ask_levels o.quantity e.trade_pool_free
        e.next_trade_id
      simp only []
      omega
    refine ⟨hwid, hwpr, hwsd, hwst, hwfq, hq, ?_, ?_⟩
    · rw [if_pos hside, hpost]
      have hwb : w.side = Side.Buy := by rw [hwsd, hside]
      simp only [add_order_to_book, if_pos hwb]
      obtain ⟨lv, hm, hp2, ho2⟩ := insertOrder_mem (match_buy_order
        { e with total_orders_processed := e.total_orders_processed + 1 } o).2.bid_levels w
      exact ⟨lv, hm, hwpr ▸ hp2, ho2⟩
    · rw [hpost]
      have hwb : w.side = Side.Buy := by rw [hwsd, hside]
      simp only [add_order_to_book, if_pos hwb]
      rw [← hwid]
      rw [lkFind_lkInsert]
      rw [hwid, hwsd, hwpr]
  · have hsd2 : o.side = Side.Sell := by
      cases hs : o.side
      · exact absurd hs hside
      · rfl
    have hnb : ¬ o.side = Side.Buy := hside
    have hw2 : (match_sell_order { e with total_orders_processed :=
        e.total_orders_processed + 1 } o).1.remaining_order = some w := by
      rw [process_order_fst, if_neg hnb] at hw
      exact hw
    obtain ⟨hwe, hfm⟩ := match_sell_order_rem _ _ _ hw2
    have hwid : w.orderID = o.orderID := by rw [hwe]
    have hwpr : w.price = o.price := by rw [hwe]
    have hwsd : w.side = o.side := by rw [hwe]
    have hwst : w.status = OrderStatus.Incoming := by rw [hwe]
    have hwfq : w.filledQuantity = o.filledQuantity := by rw [hwe]
    have hpost : (process_order e o).2 =
        add_order_to_book (match_sell_order { e with total_orders_processed :=
          e.total_orders_processed + 1 } o).2 w := by
      have hx := process_order_snd_of_rem e o w
        (by rw [if_neg hnb]; exact hw2) (by rw [if_neg hnb]; exact hfm)
      rw [if_neg hnb] at hx
      exact hx
    have htrades : (process_order e o).1.trades =
        (sweepLevels false o e.bid_levels.reverse o.quantity e.trade_pool_free
          e.next_trade_id).trades := by
      rw [process_order_fst, if_neg hnb]
      rfl
    have hq : w.quantity + tradesQty (process_order e o).1.trades = o.quantity := by
      rw [htrades, hwe]
      have := sweepLevels_remaining false o e.bid_levels.reverse o.quantity e.trade_pool_free
        e.next_trade_id
      simp only []
      omega
    refine ⟨hwid, hwpr, hwsd, hwst, hwfq, hq, ?_, ?_⟩
    · rw [if_neg hnb, hpost]
      have hwb : ¬ w.side = Side.Buy := by
        rw [hwsd, hsd2]
        intro hx
        cases hx
      simp only [add_order_to_book, if_neg hwb]
      obtain ⟨lv, hm, hp2, ho2⟩ := insertOrder_mem (match_sell_order
        { e with total_orders_processed := e.total_orders_processed + 1 } o).2.ask_levels w
      exact ⟨lv, hm, hwpr ▸ hp2, ho2⟩
    · rw [hpost]
      have hwb : ¬ w.side = Side.Buy := by
        rw [hwsd, hsd2]
        intro hx
        cases hx
      simp only [add_order_to_book, if_neg hwb]
      rw [← hwid]
      rw [lkFind_lkInsert]
      rw [hwid, hwsd, hwpr]

/-- Witness for the amended C5: in scenario S2 the 50-quantity remainder of
the GTC buy rests at 10100 on the bid side with status Incoming and is found
in order_lookup. -/
theorem C5_amended_witness :
    (gtcBuy150.orderType = OrderType.Limit ∧
      (gtcBuy150.tif = TimeInForce.Day ∨ gtcBuy150.tif = TimeInForce.Gtc) ∧
      (process_order engineWithSell gtcBuy150).1.trades ≠ [] ∧
      (process_order engineWithSell gtcBuy150).1.remaining_order =
        some { gtcBuy150 with quantity := 50 }) ∧
    (({ gtcBuy150 with quantity := 50 } : Order).orderID = gtcBuy150.orderID ∧
      ({ gtcBuy150 with quantity := 50 } : Order).price = gtcBuy150.price ∧
      ({ gtcBuy150 with quantity := 50 } : Order).side = gtcBuy150.side ∧
      ({ gtcBuy150 with quantity := 50 } : Order).status = OrderStatus.Incoming ∧
      ({ gtcBuy150 with quantity := 50 } : Order).filledQuantity = gtcBuy150.filledQuantity ∧
      ({ gtcBuy150 with quantity := 50 } : Order).quantity +
        tradesQty (process_order engineWithSell gtcBuy150).1.trades = gtcBuy150.quantity ∧
      (∃ lv ∈ (if gtcBuy150.side = Side.Buy then
          (process_order engineWithSell gtcBuy150).2.bid_levels
        else (process_order engineWithSell gtcBuy150).2.ask_levels),
        lv.price = gtcBuy150.price ∧ ({ gtcBuy150 with quantity := 50 } : Order) ∈ lv.orders) ∧
      lkFind (process_order engineWithSell gtcBuy150).2.order_lookup gtcBuy150.orderID =
        some (gtcBuy150.orderID, gtcBuy150.side, gtcBuy150.price)) :=
  ⟨⟨by decide, by decide, by decide, by decide⟩,
   C5_amended_remainder_rests engineWithSell gtcBuy150 (by decide) (by decide) (by decide)
     { gtcBuy150 with quantity := 50 } (by decide)⟩

/-- Splitting sumTradesFor over a cons. -/
theorem sumTradesFor_cons (b : Bool) (id : Nat) (t : Trade) (ts : List Trade) :
    sumTradesFor b id (t :: ts) =
      (if restingId b t = id then t.quantity else 0) + sumTradesFor b id ts := by
  by_cases h : restingId b t = id <;> simp [sumTradesFor, tradesQty, List.filter_cons, h]

/-- Splitting sumTradesFor over an append. -/
theorem sumTradesFor_append (b : Bool) (id : Nat) (a c : List Trade) :
    sumTradesFor b id (a ++ c) = sumTradesFor b id a + sumTradesFor b id c := by
  simp [sumTradesFor, tradesQty, List.filter_append]

/-- Trades that never name an id contribute nothing to its sum. -/
theorem sumTradesFor_eq_zero (b : Bool) (id : Nat) (ts : List Trade)
    (h : ∀ t ∈ ts, restingId b t ≠ id) : sumTradesFor b id ts = 0 := by
  have hf : ts.filter (fun t => decide (restingId b t = id)) = [] := by
    rw [List.filter_eq_nil_iff]
    intro t ht
    simpa using h t ht
  simp [sumTradesFor, hf, tradesQty]

/-- The trade built against a resting order names that order on the resting
side and carries the computed trade quantity, for either incoming side. -/
theorem mkTrade_resting (b : Bool) (w o : Order) (lp tq ntid : Nat) :
    restingId b (if b then create_trade w o lp tq ntid
                 else create_trade o w lp tq ntid) = o.orderID ∧
    (if b then create_trade w o lp tq ntid
     else create_trade o w lp tq ntid).quantity = tq := by
  cases b <;> simp [restingId, create_trade]

/-- Per-level conservation: with distinct resting ids at the level, every
resting order either survives the pass with its filledQuantity increased by
exactly the summed quantity of the trades naming it (open quantity decreased
by the same amount), or is fully consumed by trades summing to exactly its
open quantity. -/
theorem fillOrders_conservation (b : Bool) (w : Order) (lp : Nat) (l : List Order)
    (rem tpf ntid : Nat) (hnd : (l.map Order.orderID).Nodup) :
    ∀ o ∈ l,
      (∃ o2 ∈ (fillOrders b w lp l rem tpf ntid).orders,
         o2.orderID = o.orderID ∧
         o2.filledQuantity = o.filledQuantity +
           sumTradesFor b o.orderID (fillOrders b w lp l rem tpf ntid).trades ∧
         o2.quantity + sumTradesFor b o.orderID (fillOrders b w lp l rem tpf ntid).trades
           = o.quantity) ∨
      sumTradesFor b o.orderID (fillOrders b w lp l rem tpf ntid).trades = o.quantity := by
  induction l generalizing rem tpf ntid with
  | nil =>
      intro o ho
      simp at ho
  | cons oh rest ih =>
      intro o0 ho0
      by_cases h0 : rem = 0
      · subst h0
        rw [fillOrders_rem_zero]
        exact Or.inl ⟨o0, ho0, rfl, by simp [sumTradesFor, tradesQty],
          by simp [sumTradesFor, tradesQty]⟩
      · by_cases hp : tpf = 0
        · subst hp
          rw [fillOrders_tpf_zero]
          exact Or.inl ⟨o0, ho0, rfl, by simp [sumTradesFor, tradesQty],
            by simp [sumTradesFor, tradesQty]⟩
        · have hnd2 : oh.orderID ∉ rest.map Order.orderID ∧ (rest.map Order.orderID).Nodup := by
            rw [List.map_cons, List.nodup_cons] at hnd
            exact hnd
          have hminle : min rem oh.quantity ≤ oh.quantity := Nat.min_le_right _ _
          have hminrem : min rem oh.quantity ≤ rem := Nat.min_le_left _ _
          have hmk := mkTrade_resting b w oh lp (min rem oh.quantity) ntid
          simp only [fillOrders, if_neg h0, if_neg hp]
          by_cases hq : oh.quantity - min rem oh.quantity = 0
          · simp only [if_pos hq]
            have hz0 : ∀ t ∈ (fillOrders b w lp rest (rem - min rem oh.quantity) (tpf - 1)
                (ntid + 1)).trades, restingId b t ≠ oh.orderID := by
              intro t ht hcontra
              obtain ⟨-, o2, ho2, hid⟩ := fillOrders_trades_mem b w lp rest _ _ _ t ht
              exact hnd2.1 (List.mem_map.mpr ⟨o2, ho2, by rw [hid, hcontra]⟩)
            rcases List.mem_cons.mp ho0 with heq | htail
            · subst heq
              right
              rw [sumTradesFor_cons, if_pos hmk.1, hmk.2,
                sumTradesFor_eq_zero b o0.orderID _ hz0]
              omega
            · have hne : restingId b (if b then create_trade w oh lp (min rem oh.quantity) ntid
                  else create_trade oh w lp (min rem oh.quantity) ntid) ≠ o0.orderID := by
                rw [hmk.1]
                intro hcontra
                exact hnd2.1 (List.mem_map.mpr ⟨o0, htail, hcontra.symm⟩)
              rcases ih (rem - min rem oh.quantity) (tpf - 1) (ntid + 1) hnd2.2 o0 htail with
                ⟨o2, ho2, hid, hfq, hqt⟩ | hsum
              · left
                refine ⟨o2, ho2, hid, ?_, ?_⟩
                · rw [sumTradesFor_cons, if_neg hne]
                  omega
                · rw [sumTradesFor_cons, if_neg hne]
                  omega
              · right
                rw [sumTradesFor_cons, if_neg hne]
                omega
          · simp only [if_neg hq]
            have hrz : rem - min rem oh.quantity = 0 := by omega
            rw [hrz, fillOrders_rem_zero]
            rcases List.mem_cons.mp ho0 with heq | htail
            · subst heq
              left
              refine ⟨{ o0 with
                  quantity := o0.quantity - min rem o0.quantity,
                  filledQuantity := o0.filledQuantity + min rem o0.quantity,
                  status := OrderStatus.PartiallyFilled },
                List.mem_cons_self _ _, rfl, ?_, ?_⟩
              · rw [sumTradesFor_cons, if_pos hmk.1, hmk.2]
                simp [sumTradesFor, tradesQty]
              · rw [sumTradesFor_cons, if_pos hmk.1, hmk.2]
                simp only [sumTradesFor, tradesQty, List.filter_nil, List.map_nil,
                  List.sum_nil]
                omega
            · have hne : restingId b (if b then create_trade w oh lp (min rem oh.quantity) ntid
                  else create_trade oh w lp (min rem oh.quantity) ntid) ≠ o0.orderID := by
                rw [hmk.1]
                intro hcontra
                exact hnd2.1 (List.mem_map.mpr ⟨o0, htail, hcontra.symm⟩)
              left
              refine ⟨o0, List.mem_cons_of_mem _ htail, rfl, ?_, ?_⟩
              · rw [sumTradesFor_cons, if_neg hne]
                simp [sumTradesFor, tradesQty]
              · rw [sumTradesFor_cons, if_neg hne]
                simp [sumTradesFor, tradesQty]

/-- Side-wide conservation across the sweep: with resting ids distinct across
the whole side and consistent per-level order counts, every resting order
either survives somewhere in the swept side with filledQuantity increased by
exactly the summed quantity of the trades naming it (open quantity decreased
by the same), or is fully consumed by trades summing to its open quantity. -/
theorem sweepLevels_conservation (b : Bool) (w : Order) (ls : List PriceLevel)
    (rem tpf ntid : Nat)
    (hnd : ((ls.map fun lv => lv.orders.map Order.orderID).flatten).Nodup)
    (hcnt : ∀ lv ∈ ls, lv.order_count = lv.orders.length) :
    ∀ lv ∈ ls, ∀ o ∈ lv.orders,
      (∃ lv2 ∈ (sweepLevels b w ls rem tpf ntid).levels, ∃ o2 ∈ lv2.orders,
         o2.orderID = o.orderID ∧
         o2.filledQuantity = o.filledQuantity +
           sumTradesFor b o.orderID (sweepLevels b w ls rem tpf ntid).trades ∧
         o2.quantity + sumTradesFor b o.orderID (sweepLevels b w ls rem tpf ntid).trades
           = o.quantity) ∨
      sumTradesFor b o.orderID (sweepLevels b w ls rem tpf ntid).trades = o.quantity := by
  induction ls generalizing rem tpf ntid with
  | nil =>
      intro lv hlv
      simp at hlv
  | cons lvh rest ih =>
      intro lv hlv o ho
      have hsplit : (lvh.orders.map Order.orderID).Nodup ∧
          ((rest.map fun lv => lv.orders.map Order.orderID).flatten).Nodup ∧
          ∀ x ∈ lvh.orders.map Order.orderID,
            x ∉ (rest.map fun lv => lv.orders.map Order.orderID).flatten := by
        rw [List.map_cons, List.flatten_cons, List.nodup_append] at hnd
        exact ⟨hnd.1, hnd.2.1, fun x hx hj => hnd.2.2 hx hj⟩
      by_cases hc : price_cross b w.price lvh.price ∧ 0 < rem
      · simp only [sweepLevels, if_pos hc]
        rcases List.mem_cons.mp hlv with hlveq | hlvtail
        · subst hlveq
          have hzsr : sumTradesFor b o.orderID (sweepLevels b w rest
              (fillOrders b w lv.price lv.orders rem tpf ntid).remaining
              (fillOrders b w lv.price lv.orders rem tpf ntid).tpf
              (fillOrders b w lv.price lv.orders rem tpf ntid).ntid).trades = 0 := by
            apply sumTradesFor_eq_zero
            intro t ht hcontra
            obtain ⟨lv2, hlv2, -, -, o2, ho2, hid⟩ :=
              sweepLevels_trades_mem b w rest _ _ _ t ht
            refine hsplit.2.2 o.orderID (List.mem_map.mpr ⟨o, ho, rfl⟩) ?_
            refine List.mem_flatten.mpr ⟨lv2.orders.map Order.orderID,
              List.mem_map.mpr ⟨lv2, hlv2, rfl⟩, ?_⟩
            exact List.mem_map.mpr ⟨o2, ho2, by rw [hid, hcontra]⟩
          rcases fillOrders_conservation b w lv.price lv.orders rem tpf ntid hsplit.1 o ho with
            ⟨o2, ho2, hid, hfq, hqt⟩ | hsum
          · left
            have hcnt1 : lv.order_count = lv.orders.length := hcnt lv (List.mem_cons_self _ _)
            have hlen := fillOrders_length b w lv.price lv.orders rem tpf ntid
            have hpos : 0 < (fillOrders b w lv.price lv.orders rem tpf ntid).orders.length :=
              List.length_pos.mpr (List.ne_nil_of_mem ho2)
            have hkeep : ¬ (lv.order_count -
                (fillOrders b w lv.price lv.orders rem tpf ntid).removedIds.length = 0) := by
              omega
            rw [if_neg hkeep]
            refine ⟨_, List.mem_cons_self _ _, o2, ho2, hid, ?_, ?_⟩
            · rw [sumTradesFor_append, hzsr]
              omega
            · rw [sumTradesFor_append, hzsr]
              omega
          · right
            rw [sumTradesFor_append, hzsr]
            omega
        · have hzfr : sumTradesFor b o.orderID
              (fillOrders b w lvh.price lvh.orders rem tpf ntid).trades = 0 := by
            apply sumTradesFor_eq_zero
            intro t ht hcontra
            obtain ⟨-, o2, ho2, hid⟩ :=
              fillOrders_trades_mem b w lvh.price lvh.orders rem tpf ntid t ht
            refine hsplit.2.2 o2.orderID (List.mem_map.mpr ⟨o2, ho2, rfl⟩) ?_
            rw [hid, hcontra]
            exact List.mem_flatten.mpr ⟨lv.orders.map Order.orderID,
              List.mem_map.mpr ⟨lv, hlvtail, rfl⟩, List.mem_map.mpr ⟨o, ho, rfl⟩⟩
          have hcnt2 : ∀ lv2 ∈ rest, lv2.order_count = lv2.orders.length :=
            fun lv2 h2 => hcnt lv2 (List.mem_cons_of_mem _ h2)
          rcases ih _ _ _ hsplit.2.1 hcnt2 lv hlvtail o ho with
            ⟨lv2, hlv2, o2, ho2, hid, hfq, hqt⟩ | hsum
          · left
            refine ⟨lv2, ?_, o2, ho2, hid, ?_, ?_⟩
            · by_cases hz : lvh.order_count -
                  (fillOrders b w lvh.price lvh.orders rem tpf ntid).removedIds.length = 0
              · rw [if_pos hz]
                exact hlv2
              · rw [if_neg hz]
                exact List.mem_cons_of_mem _ hlv2
            · rw [sumTradesFor_append, hzfr]
              omega
            · rw [sumTradesFor_append, hzfr]
              omega
          · right
            rw [sumTradesFor_append, hzfr]
            omega
      · simp only [sweepLevels, if_neg hc]
        left
        exact ⟨lv, hlv, o, ho, rfl, by simp [sumTradesFor, tradesQty],
          by simp [sumTradesFor, tradesQty]⟩

/-- Resting a buy order leaves the ask side untouched. -/
theorem add_order_to_book_asks (e : MatchingEngine) (o : Order) (h : o.side = Side.Buy) :
    (add_order_to_book e o).ask_levels = e.ask_levels := by
  simp [add_order_to_book, h]

/-- Resting a sell order leaves the bid side untouched. -/
theorem add_order_to_book_bids (e : MatchingEngine) (o : Order) (h : ¬ o.side = Side.Buy) :
    (add_order_to_book e o).bid_levels = e.bid_levels := by
  simp [add_order_to_book, h]

/-- For an incoming buy, the post-state ask side and the emitted trades are
exactly the sweep of the pre-state ask levels (the rested remainder, if any,
goes to the bid side). -/
theorem process_order_buy_book (e : MatchingEngine) (incoming : Order)
    (h : incoming.side = Side.Buy) :
    (process_order e incoming).2.ask_levels =
      (sweepLevels true incoming e.ask_levels incoming.quantity e.trade_pool_free
        e.next_trade_id).levels ∧
    (process_order e incoming).1.trades =
      (sweepLevels true incoming e.ask_levels incoming.quantity e.trade_pool_free
        e.next_trade_id).trades := by
  constructor
  · simp only [process_order, if_pos h]
    rcases hr : (match_buy_order { e with total_orders_processed :=
        e.total_orders_processed + 1 } incoming).1.remaining_order with _ | w
    · simp only [hr]
      rfl
    · obtain ⟨hwe, hfm⟩ := match_buy_order_rem _ _ _ hr
      have hws : w.side = Side.Buy := by
        rw [hwe]
        exact h
      simp only [hr, hfm]
      rw [if_neg Bool.false_ne_true]
      rw [add_order_to_book_asks _ _ hws]
      rfl
  · rw [process_order_fst, if_pos h]
    rfl

/-- For an incoming sell, the post-state bid side is the reversed sweep of
the reversed pre-state bid levels, and the trades are those of that sweep. -/
theorem process_order_sell_book (e : MatchingEngine) (incoming : Order)
    (h : incoming.side = Side.Sell) :
    (process_order e incoming).2.bid_levels =
      (sweepLevels false incoming e.bid_levels.reverse incoming.quantity e.trade_pool_free
        e.next_trade_id).levels.reverse ∧
    (process_order e incoming).1.trades =
      (sweepLevels false incoming e.bid_levels.reverse incoming.quantity e.trade_pool_free
        e.next_trade_id).trades := by
  have hnb : ¬ incoming.side = Side.Buy := by
    rw [h]
    intro hx
    cases hx
  constructor
  · simp only [process_order, if_neg hnb]
    rcases hr : (match_sell_order { e with total_orders_processed :=
        e.total_orders_processed + 1 } incoming).1.remaining_order with _ | w
    · simp only [hr]
      rfl
    · obtain ⟨hwe, hfm⟩ := match_sell_order_rem _ _ _ hr
      have hws : ¬ w.side = Side.Buy := by
        rw [hwe]
        exact hnb
      simp only [hr, hfm]
      rw [if_neg Bool.false_ne_true]
      rw [add_order_to_book_bids _ _ hws]
      rfl
  · rw [process_order_fst, if_neg hnb]
    rfl

/-- C2 amended: conservation holds for the resting (passive) side of every
process_order call.  Under unique resting ids and consistent level counts on
the opposite side, each resting order O either survives with filledQuantity
increased by exactly the summed quantity of the emitted trades naming O (its
open quantity decreased by the same, and filledQuantity never exceeding its
original filled-plus-open total), or is fully consumed by trades summing to
exactly its open quantity.  The original claim fails only for the rested
remainder of a partially matched incoming order, whose filledQuantity is
never updated (see the counterexample). -/
theorem C2_amended_conservation (e : MatchingEngine) (incoming : Order) :
    (incoming.side = Side.Buy →
      ((e.ask_levels.map fun lv => lv.orders.map Order.orderID).flatten).Nodup →
      (∀ lv ∈ e.ask_levels, lv.order_count = lv.orders.length) →
      ∀ lv ∈ e.ask_levels, ∀ o ∈ lv.orders,
        (∃ lv2 ∈ (process_order e incoming).2.ask_levels, ∃ o2 ∈ lv2.orders,
           o2.orderID = o.orderID ∧
           o2.filledQuantity = o.filledQuantity +
             sumTradesFor true o.orderID (process_order e incoming).1.trades ∧
           o2.quantity + sumTradesFor true o.orderID (process_order e incoming).1.trades
             = o.quantity ∧
           o2.filledQuantity ≤ o.filledQuantity + o.quantity) ∨
        sumTradesFor true o.orderID (process_order e incoming).1.trades = o.quantity) ∧
    (incoming.side = Side.Sell →
      ((e.bid_levels.map fun lv => lv.orders.map Order.orderID).flatten).Nodup →
      (∀ lv ∈ e.bid_levels, lv.order_count = lv.orders.length) →
      ∀ lv ∈ e.bid_levels, ∀ o ∈ lv.orders,
        (∃ lv2 ∈ (process_order e incoming).2.bid_levels, ∃ o2 ∈ lv2.orders,
           o2.orderID = o.orderID ∧
           o2.filledQuantity = o.filledQuantity +
             sumTradesFor false o.orderID (process_order e incoming).1.trades ∧
           o2.quantity + sumTradesFor false o.orderID (process_order e incoming).1.trades
             = o.quantity ∧
           o2.filledQuantity ≤ o.filledQuantity + o.quantity) ∨
        sumTradesFor false o.orderID (process_order e incoming).1.trades = o.quantity) := by
  constructor
  · intro hside hnd hcnt lv hlv o ho
    obtain ⟨hbooks, htrades⟩ := process_order_buy_book e incoming hside
    rw [hbooks, htrades]
    rcases sweepLevels_conservation true incoming e.ask_levels incoming.quantity
      e.trade_pool_free e.next_trade_id hnd hcnt lv hlv o ho with
      ⟨lv2, hlv2, o2, ho2, hid, hfq, hqt⟩ | hs
    · left
      exact ⟨lv2, hlv2, o2, ho2, hid, hfq, hqt, by omega⟩
    · right
      exact hs
  · intro hside hnd hcnt lv hlv o ho
    obtain ⟨hbooks, htrades⟩ := process_order_sell_book e incoming hside
    rw [hbooks, htrades]
    have hperm : ((e.bid_levels.reverse.map fun lv =>
        lv.orders.map Order.orderID).flatten).Nodup := by
      have hp : List.Perm (e.bid_levels.reverse.map (fun lv => lv.orders.map Order.orderID))
          (e.bid_levels.map (fun lv => lv.orders.map Order.orderID)) :=
        (List.reverse_perm e.bid_levels).map _
      exact (hp.flatten.nodup_iff).mpr hnd
    have hcnt2 : ∀ lv2 ∈ e.bid_levels.reverse, lv2.order_count = lv2.orders.length :=
      fun lv2 h2 => hcnt lv2 (List.mem_reverse.mp h2)
    rcases sweepLevels_conservation false incoming e.bid_levels.reverse incoming.quantity
      e.trade_pool_free e.next_trade_id hperm hcnt2 lv (List.mem_reverse.mpr hlv) o ho with
      ⟨lv2, hlv2, o2, ho2, hid, hfq, hqt⟩ | hs
    · left
      exact ⟨lv2, List.mem_reverse.mpr hlv2, o2, ho2, hid, hfq, hqt, by omega⟩
    · right
      exact hs

/-- Witness for the amended C2: in scenario S2 the resting sell (id 1) is
fully consumed and the trades naming it sum to exactly its open quantity. -/
theorem C2_amended_witness :
    (gtcBuy150.side = Side.Buy ∧
      ((engineWithSell.ask_levels.map fun lv => lv.orders.map Order.orderID).flatten).Nodup ∧
      (∀ lv ∈ engineWithSell.ask_levels, lv.order_count = lv.orders.length)) ∧
    (∀ lv ∈ engineWithSell.ask_levels, ∀ o ∈ lv.orders,
      (∃ lv2 ∈ (process_order engineWithSell gtcBuy150).2.ask_levels, ∃ o2 ∈ lv2.orders,
         o2.orderID = o.orderID ∧
         o2.filledQuantity = o.filledQuantity +
           sumTradesFor true o.orderID (process_order engineWithSell gtcBuy150).1.trades ∧
         o2.quantity + sumTradesFor true o.orderID
           (process_order engineWithSell gtcBuy150).1.trades = o.quantity ∧
         o2.filledQuantity ≤ o.filledQuantity + o.quantity) ∨
      sumTradesFor true o.orderID (process_order engineWithSell gtcBuy150).1.trades
        = o.quantity) :=
  ⟨⟨by decide, by decide, by decide⟩,
   (C2_amended_conservation engineWithSell gtcBuy150).1 (by decide) (by decide) (by decide)⟩

end TradingEngine
